import Mathlib

/-!
Shallow embedding of the GradientBro analysis pipeline
(`src/analyzer/*.ts`, `src/utils/image.ts`, the orchestrator
`src/analyzer/index.ts` and the blur analyser) in Lean 4, together with
theorems settling the frozen claims C1 - C10.

Conventions of the embedding:
* JavaScript double arithmetic is modelled exactly: integer pixel data as
  `Nat`, derived quantities as `Rat`, and quantities that pass through
  `Math.sqrt` (irrational in general) as `Real`.
* `Math.round x` is `Int.floor (x + 1/2)` (JS rounds half-up, towards +inf).
* A JS `NaN` produced by dividing into an empty list (`0 / 0`) is modelled
  by `Option`: `none` is NaN, `some q` a finite value.
* The process-wide randomness of k-means++ seeding is abstracted by the
  list of sample indices the seeding chose (k-means++ always returns
  copies of samples); theorems quantify over every such choice.
-/

namespace GradientBro

/-- JS `Math.round`: round half away from zero towards plus infinity. -/
def jsRound (q : ℚ) : ℤ := ⌊q + 1/2⌋

/-- `Math.round(q * 100) / 100`, the 2-decimal rounding used throughout. -/
def round2q (q : ℚ) : ℚ := (jsRound (q * 100) : ℚ) / 100

/-- JS `Math.round` on a real number. -/
noncomputable def jsRoundR (x : ℝ) : ℤ := ⌊x + 1/2⌋

/-- 2-decimal rounding of a real, as the rational `⌊x*100 + 1/2⌋ / 100`. -/
noncomputable def round2r (x : ℝ) : ℚ := (jsRoundR (x * 100) : ℚ) / 100

/-! ## Image model (`src/utils/image.ts`)

`RawImageData`: a flat RGB byte buffer, 3 bytes per pixel, row-major. -/

structure Img where
  /-- Raw pixel buffer, 3 bytes per pixel (RGB), row-major. -/
  data : List ℕ
  w : ℕ
  h : ℕ
  /-- Original dimensions before resize (informational only). -/
  ow : ℕ := 0
  oh : ℕ := 0
deriving DecidableEq

/-- `getPixel`: RGB triple at `(x, y)`; like a JS `Buffer`, out-of-range
reads yield 0 (a `Buffer` read past the end is `undefined` in JS, but the
analysers never read out of range for in-range coordinates). -/
def getPixel (img : Img) (x y : ℕ) : ℕ × ℕ × ℕ :=
  let idx := (y * img.w + x) * 3
  (img.data.getD idx 0, img.data.getD (idx + 1) 0, img.data.getD (idx + 2) 0)

/-- Raw (0..255-scale) luminance `0.299 R + 0.587 G + 0.114 B` of a pixel,
as used by the edge-sharpness, blur, noise and shape analysers. -/
def pixelLum (img : Img) (x y : ℕ) : ℚ :=
  let p := getPixel img x y
  (299 / 1000) * p.1 + (587 / 1000) * p.2.1 + (114 / 1000) * p.2.2

/-! ## Colour utilities

Modelled from the spec: `src/utils/color.ts` is not present under `src/`
(only its importers are), so `colorDistance`, `luminance` and `rgbToHsl`
are modelled from the spec's words: colour distance is "Euclidean over RGB
only", `luminance` is the normalised `0.299R+0.587G+0.114B` (compared
against 0-1 thresholds by the region mapper), and `rgbToHsl` is the
standard RGB→HSL conversion with hue in degrees `[0, 360)` and
saturation / lightness in `[0, 1]`. -/

/-- Squared Euclidean distance between two RGB triples. -/
def colorDist2 (a b : ℚ × ℚ × ℚ) : ℚ :=
  (a.1 - b.1) ^ 2 + (a.2.1 - b.2.1) ^ 2 + (a.2.2 - b.2.2) ^ 2

/-- Modelled from the spec: Euclidean colour distance over RGB. -/
noncomputable def colorDistance (a b : ℚ × ℚ × ℚ) : ℝ :=
  Real.sqrt (colorDist2 a b)

/-- Modelled from the spec: normalised luminance in `[0, 1]`. -/
def luminance (r g b : ℕ) : ℚ :=
  ((299 / 1000) * r + (587 / 1000) * g + (114 / 1000) * b) / 255

/-- Modelled from the spec: standard RGB→HSL, hue in `[0, 360)`,
saturation and lightness in `[0, 1]`. -/
def rgbToHsl (r g b : ℕ) : ℚ × ℚ × ℚ :=
  let r' : ℚ := (r : ℚ) / 255
  let g' : ℚ := (g : ℚ) / 255
  let b' : ℚ := (b : ℚ) / 255
  let mx := max r' (max g' b')
  let mn := min r' (min g' b')
  let l := (mx + mn) / 2
  if mx = mn then (0, 0, l)
  else
    let d := mx - mn
    let s := if l > 1/2 then d / (2 - mx - mn) else d / (mx + mn)
    let h6 :=
      if mx = r' then (g' - b') / d + (if g' < b' then 6 else 0)
      else if mx = g' then (b' - r') / d + 2
      else (r' - g') / d + 4
    (h6 * 60, s, l)

/-! ## Nearest-centroid fold

Both `extractColors` (k-means assignment) and `assignPixelsToClusters`
run the same loop: `bestDist = Infinity; bestIdx = 0; for c: if
colorDistance(p, cand[c]) < bestDist then update`.  The accumulator is
`none` for the initial `(Infinity, 0)` state (every finite distance beats
it), `some (d, i)` afterwards. -/

/-- One step of the nearest-candidate loop over real distances. -/
noncomputable def nearStepR (p : ℚ × ℚ × ℚ) (st : Option (ℝ × ℕ))
    (c : ℕ × (ℚ × ℚ × ℚ)) : Option (ℝ × ℕ) :=
  match st with
  | none => some (colorDistance p c.2, c.1)
  | some (bd, bi) =>
      if colorDistance p c.2 < bd then some (colorDistance p c.2, c.1)
      else some (bd, bi)

/-- One step of the nearest-candidate loop over squared distances. -/
def nearStepQ (p : ℚ × ℚ × ℚ) (st : Option (ℚ × ℕ))
    (c : ℕ × (ℚ × ℚ × ℚ)) : Option (ℚ × ℕ) :=
  match st with
  | none => some (colorDist2 p c.2, c.1)
  | some (bd, bi) =>
      if colorDist2 p c.2 < bd then some (colorDist2 p c.2, c.1)
      else some (bd, bi)

/-- Index of the first candidate at minimal Euclidean colour distance
from `p` (0 if the list is empty), exactly the JS loop. -/
noncomputable def nearestIdx (p : ℚ × ℚ × ℚ) (cands : List (ℚ × ℚ × ℚ)) : ℕ :=
  ((cands.enum.foldl (nearStepR p) none).map Prod.snd).getD 0

/-- The computable twin of `nearestIdx`, over squared distances. -/
def nearestIdxQ (p : ℚ × ℚ × ℚ) (cands : List (ℚ × ℚ × ℚ)) : ℕ :=
  ((cands.enum.foldl (nearStepQ p) none).map Prod.snd).getD 0

lemma sqrt_lt_sqrt_iff_of_nonneg {x y : ℝ} (hx : 0 ≤ x) :
    Real.sqrt x < Real.sqrt y ↔ x < y := by
  constructor
  · intro h
    by_contra hle
    exact absurd (Real.sqrt_le_sqrt (not_lt.mp hle)) (not_le.mpr h)
  · intro h
    exact Real.sqrt_lt_sqrt hx h

lemma colorDist2_nonneg (p c : ℚ × ℚ × ℚ) : (0 : ℚ) ≤ colorDist2 p c := by
  have h1 : (0:ℚ) ≤ (p.1 - c.1)^2 := sq_nonneg _
  have h2 : (0:ℚ) ≤ (p.2.1 - c.2.1)^2 := sq_nonneg _
  have h3 : (0:ℚ) ≤ (p.2.2 - c.2.2)^2 := sq_nonneg _
  unfold colorDist2; positivity

/-- The real-distance fold and the squared-distance fold walk in
lock-step: their states are related by `sqrt` on the distance part. -/
lemma nearFold_bridge (p : ℚ × ℚ × ℚ) (l : List (ℕ × (ℚ × ℚ × ℚ)))
    (stQ : Option (ℚ × ℕ)) (hst : ∀ q i, stQ = some (q, i) → 0 ≤ q) :
    l.foldl (nearStepR p) (stQ.map fun s => (Real.sqrt s.1, s.2)) =
      (l.foldl (nearStepQ p) stQ).map fun s => (Real.sqrt s.1, s.2) := by
  induction l generalizing stQ with
  | nil => rfl
  | cons c cs ih =>
      have hnn : (0:ℚ) ≤ colorDist2 p c.2 := colorDist2_nonneg p c.2
      cases stQ with
      | none =>
          simp only [List.foldl_cons, Option.map_none, nearStepR, nearStepQ]
          exact ih (some (colorDist2 p c.2, c.1)) (by
            intro q i h
            injection h with h'
            injection h' with hq hi
            exact hq ▸ hnn)
      | some s =>
          obtain ⟨bd, bi⟩ := s
          have hbd : (0:ℚ) ≤ bd := hst bd bi rfl
          simp only [List.foldl_cons, Option.map_some', nearStepR, nearStepQ]
          have hcmp : (colorDistance p c.2 < Real.sqrt (bd : ℚ)) ↔
              (colorDist2 p c.2 < bd) := by
            unfold colorDistance
            rw [sqrt_lt_sqrt_iff_of_nonneg (by exact_mod_cast hnn)]
            exact_mod_cast Iff.rfl
          by_cases h : colorDist2 p c.2 < bd
          · rw [if_pos (hcmp.mpr h), if_pos h]
            exact ih (some (colorDist2 p c.2, c.1)) (by
              intro q i hqi
              injection hqi with h'
              injection h' with hq hi
              exact hq ▸ hnn)
          · rw [if_neg (fun hc => h (hcmp.mp hc)), if_neg h]
            exact ih (some (bd, bi)) (by
              intro q i hqi
              injection hqi with h'
              injection h' with hq hi
              exact hq ▸ hbd)

/-- `nearestIdx` agrees with its computable squared-distance twin. -/
lemma nearestIdx_eq_Q : nearestIdx = nearestIdxQ := by
  funext p cands
  unfold nearestIdx nearestIdxQ
  rw [show (none : Option (ℝ × ℕ)) =
      (Option.map (fun s : ℚ × ℕ => (Real.sqrt s.1, s.2)) none) from rfl,
    nearFold_bridge p cands.enum none (by intro q i h; cases h)]
  cases cands.enum.foldl (nearStepQ p) none <;> rfl

/-- Invariant of the nearest-candidate loop, walked from an arbitrary
running best `(bd, bi)` over the candidates numbered from `n` on: the
final best distance is a lower bound of everything seen, and the final
index is either the initial one (nothing beat `bd`) or the first
candidate index realising a strict improvement over everything before
it. -/
lemma nearFoldQ_aux (p : ℚ × ℚ × ℚ) (cs : List (ℚ × ℚ × ℚ)) :
    ∀ (n : ℕ) (bd : ℚ) (bi : ℕ),
    ∃ bd' bi',
      (List.enumFrom n cs).foldl (nearStepQ p) (some (bd, bi)) = some (bd', bi') ∧
      bd' ≤ bd ∧
      (∀ j, j < cs.length → bd' ≤ colorDist2 p (cs.getD j (0, 0, 0))) ∧
      ((bd' = bd ∧ bi' = bi) ∨
        (∃ k, k < cs.length ∧ bi' = n + k ∧
          bd' = colorDist2 p (cs.getD k (0, 0, 0)) ∧ bd' < bd ∧
          ∀ j, j < k → bd' < colorDist2 p (cs.getD j (0, 0, 0)))) := by
  induction cs with
  | nil =>
      intro n bd bi
      exact ⟨bd, bi, rfl, le_refl bd, by intro j hj; simp at hj, Or.inl ⟨rfl, rfl⟩⟩
  | cons c rest ih =>
      intro n bd bi
      have hstep : (List.enumFrom n (c :: rest)).foldl (nearStepQ p) (some (bd, bi)) =
          (List.enumFrom (n + 1) rest).foldl (nearStepQ p)
            (if colorDist2 p c < bd then some (colorDist2 p c, n) else some (bd, bi)) := by
        simp [List.enumFrom, nearStepQ]
      by_cases hlt : colorDist2 p c < bd
      · obtain ⟨bd', bi', hfold, hle, hall, hcase⟩ := ih (n + 1) (colorDist2 p c) n
        refine ⟨bd', bi', ?_, le_of_lt (lt_of_le_of_lt hle hlt), ?_, ?_⟩
        · rw [hstep, if_pos hlt]; exact hfold
        · intro j hj
          cases j with
          | zero => simpa using hle
          | succ j' => simpa using hall j' (by simpa using hj)
        · rcases hcase with ⟨hbd, hbi⟩ | ⟨k, hk, hbi, hbd, hsm, hfirst⟩
          · exact Or.inr ⟨0, by simp, by omega, by simpa using hbd, by rw [hbd]; exact hlt,
              by intro j hj; omega⟩
          · refine Or.inr ⟨k + 1, by simpa using hk, by omega, by simpa using hbd,
              lt_trans hsm hlt, ?_⟩
            intro j hj
            cases j with
            | zero => simpa using hsm
            | succ j' => simpa using hfirst j' (by omega)
      · obtain ⟨bd', bi', hfold, hle, hall, hcase⟩ := ih (n + 1) bd bi
        refine ⟨bd', bi', ?_, hle, ?_, ?_⟩
        · rw [hstep, if_neg hlt]; exact hfold
        · intro j hj
          cases j with
          | zero => simpa using le_trans hle (not_lt.mp hlt)
          | succ j' => simpa using hall j' (by simpa using hj)
        · rcases hcase with ⟨hbd, hbi⟩ | ⟨k, hk, hbi, hbd, hsm, hfirst⟩
          · exact Or.inl ⟨hbd, hbi⟩
          · refine Or.inr ⟨k + 1, by simpa using hk, by omega, by simpa using hbd, hsm, ?_⟩
            intro j hj
            cases j with
            | zero => simpa using lt_of_lt_of_le hsm (not_lt.mp hlt)
            | succ j' => simpa using hfirst j' (by omega)

/-- `nearestIdxQ` returns the smallest index among the candidates at
minimal squared colour distance: a valid index, whose distance is a
minimum, and every earlier index has a strictly larger distance. -/
lemma nearestIdxQ_spec (p : ℚ × ℚ × ℚ) (cands : List (ℚ × ℚ × ℚ))
    (hc : cands ≠ []) :
    nearestIdxQ p cands < cands.length ∧
    (∀ j, j < cands.length →
      colorDist2 p (cands.getD (nearestIdxQ p cands) (0, 0, 0)) ≤
        colorDist2 p (cands.getD j (0, 0, 0))) ∧
    (∀ j, j < nearestIdxQ p cands →
      colorDist2 p (cands.getD (nearestIdxQ p cands) (0, 0, 0)) <
        colorDist2 p (cands.getD j (0, 0, 0))) := by
  obtain ⟨c, rest, rfl⟩ := List.exists_cons_of_ne_nil hc
  have hstart : (c :: rest).enum.foldl (nearStepQ p) none =
      (List.enumFrom 1 rest).foldl (nearStepQ p) (some (colorDist2 p c, 0)) := by
    simp [List.enum, List.enumFrom, nearStepQ]
  obtain ⟨bd', bi', hfold, hle, hall, hcase⟩ := nearFoldQ_aux p rest 1 (colorDist2 p c) 0
  have hval : nearestIdxQ p (c :: rest) = bi' := by
    unfold nearestIdxQ
    rw [hstart, hfold]
    rfl
  have hbd' : bd' = colorDist2 p ((c :: rest).getD bi' (0, 0, 0)) := by
    rcases hcase with ⟨hbd, hbi⟩ | ⟨k, hk, hbi, hbd, hsm, hfirst⟩
    · rw [hbd, hbi]; rfl
    · rw [hbd, hbi, Nat.add_comm 1 k]; simp [List.getD_cons_succ]
  rw [hval]
  refine ⟨?_, ?_, ?_⟩
  · rcases hcase with ⟨hbd, hbi⟩ | ⟨k, hk, hbi, hbd, hsm, hfirst⟩
    · rw [hbi]; simp
    · rw [hbi]; simp only [List.length_cons]; omega
  · intro j hj
    rw [← hbd']
    cases j with
    | zero => simpa using hle
    | succ j' => simpa using hall j' (by simpa using hj)
  · intro j hj
    rw [← hbd']
    rcases hcase with ⟨hbd, hbi⟩ | ⟨k, hk, hbi, hbd, hsm, hfirst⟩
    · omega
    · cases j with
      | zero => simpa using hsm
      | succ j' => simpa using hfirst j' (by omega)

/-- A valid-index corollary usable with an empty-safe bound: on a
non-empty candidate list the chosen index is in range. -/
lemma nearestIdxQ_lt_length (p : ℚ × ℚ × ℚ) (cands : List (ℚ × ℚ × ℚ))
    (hc : cands ≠ []) : nearestIdxQ p cands < cands.length :=
  (nearestIdxQ_spec p cands hc).1

/-! ## Colour extractor (`src/analyzer/color-extractor.ts`)

`extractColors` samples every pixel, seeds centroids with k-means++
(randomness abstracted as the list `seeds` of chosen sample indices —
the seeding always pushes copies of samples), iterates
assign/recompute up to `maxIter` times with early exit when no
assignment changed, then builds one `ColorRegion` per non-empty
cluster and sorts descending by weight. -/

structure PixelSample where
  r : ℕ
  g : ℕ
  b : ℕ
  /-- Normalised position `x / (width - 1)` (0 when width = 1: JS yields
  NaN there, which never feeds any claim-relevant value). -/
  x : ℚ
  y : ℚ
deriving DecidableEq

structure Centroid where
  r : ℚ
  g : ℚ
  b : ℚ
  x : ℚ
  y : ℚ
deriving DecidableEq

def PixelSample.rgbq (s : PixelSample) : ℚ × ℚ × ℚ := ((s.r : ℚ), (s.g : ℚ), (s.b : ℚ))

def Centroid.rgbq (c : Centroid) : ℚ × ℚ × ℚ := (c.r, c.g, c.b)

def Centroid.ofSample (s : PixelSample) : Centroid :=
  ⟨(s.r : ℚ), (s.g : ℚ), (s.b : ℚ), s.x, s.y⟩

/-- Step 1 of `extractColors`: sample all pixels row-major (the double
loop visits pixel `p = y*w + x`, i.e. `x = p % w`, `y = p / w`). -/
def mkSamples (img : Img) : List PixelSample :=
  (List.range (img.h * img.w)).map fun p =>
    let x := p % img.w
    let y := p / img.w
    let c := getPixel img x y
    { r := c.1, g := c.2.1, b := c.2.2,
      x := (x : ℚ) / ((img.w : ℚ) - 1), y := (y : ℚ) / ((img.h : ℚ) - 1) }

/-- One assignment pass: each sample goes to the nearest centroid by
colour distance only; `changed` records whether any label moved
(labels persist across iterations, starting all 0). The nearest-index
function is a parameter so that the `Real`-valued source form and its
computable twin share one body. -/
def assignStep (pick : ℚ × ℚ × ℚ → List (ℚ × ℚ × ℚ) → ℕ)
    (samples : List PixelSample) (cents : List Centroid)
    (assigns : List ℕ) : List ℕ × Bool :=
  let na := samples.map fun s => pick s.rgbq (cents.map Centroid.rgbq)
  (na, decide (na ≠ assigns))

/-- The samples assigned to cluster `c` (in sample order). -/
def clusterMembers (samples : List PixelSample) (assigns : List ℕ)
    (c : ℕ) : List PixelSample :=
  ((samples.zip assigns).filter fun sa => sa.2 == c).map Prod.fst

/-- Centroid recomputation: mean colour and mean position of the
members; a starved cluster keeps its previous centroid (`continue`). -/
def recomputeCents (samples : List PixelSample) (assigns : List ℕ)
    (cents : List Centroid) : List Centroid :=
  cents.enum.map fun ci =>
    let members := clusterMembers samples assigns ci.1
    if members.length = 0 then ci.2
    else
      let n : ℚ := (members.length : ℚ)
      { r := (members.map fun s => (s.r : ℚ)).sum / n,
        g := (members.map fun s => (s.g : ℚ)).sum / n,
        b := (members.map fun s => (s.b : ℚ)).sum / n,
        x := (members.map PixelSample.x).sum / n,
        y := (members.map PixelSample.y).sum / n }

/-- Step 3 of `extractColors`: iterate assignment and recomputation,
breaking as soon as an assignment pass changes nothing. -/
def kmeansLoop (pick : ℚ × ℚ × ℚ → List (ℚ × ℚ × ℚ) → ℕ)
    (samples : List PixelSample) :
    ℕ → List Centroid → List ℕ → List Centroid × List ℕ
  | 0, cents, assigns => (cents, assigns)
  | fuel + 1, cents, assigns =>
      let st := assignStep pick samples cents assigns
      if st.2 then kmeansLoop pick samples fuel (recomputeCents samples st.1 cents) st.1
      else (cents, st.1)

/-- Steps 2-3 of `extractColors` for a given seeding choice: centroids
start as copies of the seed samples, assignments start all 0. -/
def kmeansRun (pick : ℚ × ℚ × ℚ → List (ℚ × ℚ × ℚ) → ℕ)
    (img : Img) (seeds : List ℕ) (maxIter : ℕ) :
    List Centroid × List ℕ :=
  let samples := mkSamples img
  let cents := seeds.map fun i => Centroid.ofSample (samples.getD i ⟨0, 0, 0, 0, 0⟩)
  kmeansLoop pick samples maxIter cents (List.replicate samples.length 0)

/-- A colour region (`src/types.ts`).  `hex` is the colour packed as
`65536 R + 256 G + B` (the `#rrggbb` string formatting is presentation
only).  `edgeSharpness` is not set by the extractor (it is `undefined`
in JS until `computeEdgeSharpness` writes it, which always happens
before any read); the placeholder here is 0. -/
structure ColorRegion where
  hex : ℤ
  rgb : ℤ × ℤ × ℤ
  position : ℚ × ℚ
  weight : ℚ
  spread : ℝ
  edgeSharpness : ℚ

/-- Step 4 of `extractColors` for one non-empty cluster: weight =
member count / total, spread = mean distance to the centroid position
normalised by 0.707 and capped at 1, colours rounded to integers,
position and weight to 2 decimals. -/
noncomputable def buildRegion (total : ℚ) (samples : List PixelSample)
    (assigns : List ℕ) (c : ℕ) (cent : Centroid) : ColorRegion :=
  let pixels := clusterMembers samples assigns c
  let weight : ℚ := (pixels.length : ℚ) / total
  let spreadSum : ℝ :=
    (pixels.map fun p => Real.sqrt (((p.x - cent.x) ^ 2 + (p.y - cent.y) ^ 2 : ℚ))).sum
  let spread : ℝ := min 1 ((spreadSum / (pixels.length : ℝ)) / 0.707)
  let rgb : ℤ × ℤ × ℤ := (jsRound cent.r, jsRound cent.g, jsRound cent.b)
  { hex := 65536 * rgb.1 + 256 * rgb.2.1 + rgb.2.2,
    rgb := rgb,
    position := (round2q cent.x, round2q cent.y),
    weight := round2q weight,
    spread := spread,
    edgeSharpness := 0 }

/-- Stable insertion of a region into a weight-descending list: it goes
right before the first strictly lighter region (after equals, matching
the stable JS `Array.prototype.sort`). -/
def insertByWeight (r : ColorRegion) : List ColorRegion → List ColorRegion
  | [] => [r]
  | x :: xs => if x.weight < r.weight then r :: x :: xs else x :: insertByWeight r xs

/-- Stable sort descending by weight (`results.sort((a, b) => b.weight - a.weight)`). -/
def sortByWeightDesc (l : List ColorRegion) : List ColorRegion :=
  l.foldl (fun acc r => insertByWeight r acc) []

/-- `extractColors`: the whole extractor for a given seeding choice. -/
noncomputable def extractColors (img : Img) (seeds : List ℕ)
    (maxIter : ℕ) : List ColorRegion :=
  let samples := mkSamples img
  let ca := kmeansRun nearestIdx img seeds maxIter
  let results :=
    (ca.1.enum.filter fun ci =>
        (clusterMembers samples ca.2 ci.1).length != 0).map
      fun ci => buildRegion (samples.length : ℚ) samples ca.2 ci.1 ci.2
  sortByWeightDesc results

/-! ## Edge sharpness (`src/analyzer/edge-sharpness.ts`) -/

/-- `assignPixelsToClusters`, parametric in the nearest-index function:
one label per pixel in row-major order (`assignments[y*w + x]`, so entry
`p` has `x = p % w`, `y = p / w`), each pixel going to the first region
at minimal colour distance from its RGB. -/
def assignPixelsToClustersP (pick : ℚ × ℚ × ℚ → List (ℚ × ℚ × ℚ) → ℕ)
    (img : Img) (colors : List ColorRegion) : List ℕ :=
  (List.range (img.h * img.w)).map fun p =>
    let c := getPixel img (p % img.w) (p / img.w)
    pick ((c.1 : ℚ), (c.2.1 : ℚ), (c.2.2 : ℚ))
      (colors.map fun r => ((r.rgb.1 : ℚ), (r.rgb.2.1 : ℚ), (r.rgb.2.2 : ℚ)))

/-- `assignPixelsToClusters` as in the source (Euclidean distances). -/
noncomputable def assignPixelsToClusters (img : Img)
    (colors : List ColorRegion) : List ℕ :=
  assignPixelsToClustersP nearestIdx img colors

/-- Does the 4-neighbourhood test of the `computeEdgeSharpness` loop
fire at `(x, y)`?  (Only ever evaluated at interior pixels, where all
four neighbours exist.) -/
def isBoundaryPix (img : Img) (assigns : List ℕ) (x y : ℕ) : Bool :=
  assigns.getD ((y - 1) * img.w + x) 0 != assigns.getD (y * img.w + x) 0 ||
  assigns.getD ((y + 1) * img.w + x) 0 != assigns.getD (y * img.w + x) 0 ||
  assigns.getD (y * img.w + (x - 1)) 0 != assigns.getD (y * img.w + x) 0 ||
  assigns.getD (y * img.w + (x + 1)) 0 != assigns.getD (y * img.w + x) 0

/-- Sobel-like gradient magnitude of raw luminance at an interior pixel:
`sqrt(gx^2 + gy^2)`, `gx = lum(x+1,y) - lum(x-1,y)`,
`gy = lum(x,y+1) - lum(x,y-1)`. -/
noncomputable def gradMag (img : Img) (x y : ℕ) : ℝ :=
  let gx : ℚ := pixelLum img (x + 1) y - pixelLum img (x - 1) y
  let gy : ℚ := pixelLum img x (y + 1) - pixelLum img x (y - 1)
  Real.sqrt ((gx ^ 2 + gy ^ 2 : ℚ))

/-- `gradSums[c]` after the double loop of `computeEdgeSharpness`
(the body only accumulates, so the loop is its iteration-range sum). -/
noncomputable def gradSum (img : Img) (assigns : List ℕ) (c : ℕ) : ℝ :=
  ∑ y ∈ Finset.Ico 1 (img.h - 1), ∑ x ∈ Finset.Ico 1 (img.w - 1),
    if assigns.getD (y * img.w + x) 0 = c ∧ isBoundaryPix img assigns x y
    then gradMag img x y else 0

/-- `gradCounts[c]` after the double loop of `computeEdgeSharpness`. -/
def gradCount (img : Img) (assigns : List ℕ) (c : ℕ) : ℕ :=
  ∑ y ∈ Finset.Ico 1 (img.h - 1), ∑ x ∈ Finset.Ico 1 (img.w - 1),
    if assigns.getD (y * img.w + x) 0 = c ∧ isBoundaryPix img assigns x y
    then 1 else 0

/-- The value `computeEdgeSharpness` stores for region `c`: 0 with no
boundary pixels, else the average gradient over 50, capped at 1,
rounded to 2 decimals. -/
noncomputable def edgeSharpnessOf (img : Img) (assigns : List ℕ) (c : ℕ) : ℚ :=
  if gradCount img assigns c = 0 then 0
  else round2r (min 1 ((gradSum img assigns c / (gradCount img assigns c : ℝ)) / 50))

/-- `computeEdgeSharpness`: the in-place mutation of the regions is
modelled as returning the annotated list. -/
noncomputable def computeEdgeSharpness (img : Img) (colors : List ColorRegion)
    (assigns : List ℕ) : List ColorRegion :=
  colors.enum.map fun ci => { ci.2 with edgeSharpness := edgeSharpnessOf img assigns ci.1 }

/-! ## Blur analyser (`src/analyzer/blur-analyzer.ts`, shipped as
`unnamed/part_004`) -/

inductive BlurLevel | none | light | medium | heavy
deriving DecidableEq

structure BlurInfo where
  level : BlurLevel
  /-- `Option.none` models the JS NaN this code produces on images
  smaller than 3x3 (empty Laplacian list, `0 / 0`). -/
  variance : Option ℚ
deriving DecidableEq

/-- The 3x3 Laplacian `[0 1 0; 1 -4 1; 0 1 0]` of luminance at every
interior pixel, in loop order. -/
def laplacianValues (img : Img) : List ℚ :=
  (List.range' 1 (img.h - 2)).flatMap fun y =>
    (List.range' 1 (img.w - 2)).map fun x =>
      pixelLum img x (y - 1) + pixelLum img x (y + 1) +
        pixelLum img (x - 1) y + pixelLum img (x + 1) y - 4 * pixelLum img x y

/-- `analyzeBlur`: variance of the Laplacian, normalised by 1000 and
capped at 1, bucketed at 0.5 / 0.25 / 0.1.  With no interior pixels the
JS mean is `0/0 = NaN`; every NaN comparison is false, so the level
falls through to `heavy` and the reported variance is NaN (`none`). -/
def analyzeBlur (img : Img) : BlurInfo :=
  let laps := laplacianValues img
  let n : ℚ := (laps.length : ℚ)
  if laps.length = 0 then { level := .heavy, variance := Option.none }
  else
    let mean := laps.sum / n
    let variance := (laps.map fun v => (v - mean) ^ 2).sum / n
    let nv := min 1 (variance / 1000)
    { level :=
        if nv > 1/2 then .none
        else if nv > 1/4 then .light
        else if nv > 1/10 then .medium
        else .heavy,
      variance := some (round2q nv) }

/-! ## Noise analyser (`src/analyzer/noise-analyzer.ts`) -/

inductive NoiseFreq | fine | medium | coarse
deriving DecidableEq

inductive NoiseType | grain | speckle | smooth
deriving DecidableEq

structure NoiseInfo where
  intensity : Option ℚ
  frequency : NoiseFreq
  type : NoiseType
  sharpness : Option ℚ
  contrast : Option ℚ
  baseFrequency : Option ℚ

structure NoiseScanState where
  totalDiff : ℚ
  alternations : ℕ
  comparisons : ℕ
  prevSign : ℤ
deriving DecidableEq

/-- Step 1 of `analyzeNoise`: scan cells `(x, y)`, `x < w-1`, `y < h-1`,
in row-major order, accumulating the luminance-weighted neighbour
differences and the sign alternations of the rightward difference
(a sequential fold: `prevSign` carries across the whole scan). -/
def noiseScan (img : Img) : NoiseScanState :=
  ((List.range (img.h - 1)).flatMap fun y =>
      (List.range (img.w - 1)).map fun x => (x, y)).foldl
    (fun st xy =>
      let p := getPixel img xy.1 xy.2
      let pr := getPixel img (xy.1 + 1) xy.2
      let pd := getPixel img xy.1 (xy.2 + 1)
      let diffRight : ℚ := (299/1000) * ((pr.1 : ℚ) - p.1) +
        (587/1000) * ((pr.2.1 : ℚ) - p.2.1) + (114/1000) * ((pr.2.2 : ℚ) - p.2.2)
      let diffDown : ℚ := (299/1000) * ((pd.1 : ℚ) - p.1) +
        (587/1000) * ((pd.2.1 : ℚ) - p.2.1) + (114/1000) * ((pd.2.2 : ℚ) - p.2.2)
      let sign : ℤ := if diffRight ≥ 0 then 1 else -1
      { totalDiff := st.totalDiff + |diffRight| + |diffDown|,
        alternations := st.alternations +
          (if st.prevSign ≠ 0 ∧ sign ≠ st.prevSign then 1 else 0),
        comparisons := st.comparisons + 2,
        prevSign := sign })
    ⟨0, 0, 0, 0⟩

/-- Step 3 of `analyzeNoise`: the high-pass residual, original
luminance minus its 5x5 box blur, over `x ∈ [2, w-2)`, `y ∈ [2, h-2)`
row-major (the blur window always holds exactly 25 pixels there). -/
def residualList (img : Img) : List ℚ :=
  (List.range' 2 (img.h - 4)).flatMap fun y =>
    (List.range' 2 (img.w - 4)).map fun x =>
      let blurSum : ℚ :=
        ((List.range 5).map fun j =>
          ((List.range 5).map fun i =>
            pixelLum img (x - 2 + i) (y - 2 + j)).sum).sum
      pixelLum img x y - blurSum / 25

/-- Step 3b of `analyzeNoise`: the Laplacian of the residual field,
which is a `(w-4) x (h-4)` row-major grid. -/
def residualLaps (img : Img) : List ℚ :=
  let residuals := residualList img
  let rw := img.w - 4
  let rh := img.h - 4
  (List.range' 1 (rh - 2)).flatMap fun y =>
    (List.range' 1 (rw - 2)).map fun x =>
      residuals.getD ((y - 1) * rw + x) 0 + residuals.getD ((y + 1) * rw + x) 0 +
        residuals.getD (y * rw + (x - 1)) 0 + residuals.getD (y * rw + (x + 1)) 0 -
        4 * residuals.getD (y * rw + x) 0

/-- `analyzeNoise`.  `Option.none` in a numeric field models the JS NaN
produced by dividing into an empty list (`0/0`): `intensity` when there
are no comparison cells, `contrast`/`sharpness` when the residual or its
Laplacian list is empty, `baseFrequency` when there are no alternation
cells.  NaN comparisons are all false, so `frequency` falls to `coarse`
and `type` skips the `smooth` test, exactly as in JS. -/
noncomputable def analyzeNoise (img : Img) : NoiseInfo :=
  let scan := noiseScan img
  let intensityRaw : Option ℚ :=
    if scan.comparisons = 0 then Option.none
    else some (min 1 (scan.totalDiff / (scan.comparisons : ℚ) / 255 * 10))
  let tpa := (img.w - 1) * (img.h - 1)
  let rate : Option ℚ :=
    if tpa = 0 then Option.none else some ((scan.alternations : ℚ) / (tpa : ℚ))
  let frequency : NoiseFreq :=
    match rate with
    | Option.none => .coarse
    | some r => if r > 3/5 then .fine else if r > 7/20 then .medium else .coarse
  let type : NoiseType :=
    match intensityRaw with
    | Option.none => if frequency = .fine then .grain else .speckle
    | some i => if i < 3/20 then .smooth
        else if frequency = .fine then .grain else .speckle
  let baseFrequency : Option ℚ :=
    rate.map fun r => round2q (min 1 (max (3/10) (3/10 + r * (875/1000))))
  let residuals := residualList img
  let contrast : Option ℚ :=
    if residuals.length = 0 then Option.none
    else
      let n : ℚ := (residuals.length : ℚ)
      let mean := residuals.sum / n
      let variance := (residuals.map fun v => (v - mean) ^ 2).sum / n
      some (round2r (min 1 (Real.sqrt (variance : ℚ) / 20)))
  let laps := residualLaps img
  let sharpness : Option ℚ :=
    if laps.length = 0 then Option.none
    else
      let n : ℚ := (laps.length : ℚ)
      let mean := laps.sum / n
      let variance := (laps.map fun v => (v - mean) ^ 2).sum / n
      some (round2q (min 1 (variance / 80)))
  { intensity := intensityRaw.map round2q, frequency, type, sharpness,
    contrast, baseFrequency }

/-! ## Region mapper (`src/analyzer/region-mapper.ts`) -/

structure VignetteInfo where
  detected : Bool
  strength : ℚ

open Classical in
/-- `detectVignette`: centre ring (radial distance < 0.35) versus edge
ring (> 0.65) mean normalised luminance; `strength = min(1, max(0,
centre - edge) / 0.4)`, detected above 0.1. -/
noncomputable def detectVignette (img : Img) : VignetteInfo :=
  let cx : ℚ := (img.w : ℚ) / 2
  let cy : ℚ := (img.h : ℚ) / 2
  let maxDist : ℝ := Real.sqrt ((cx ^ 2 + cy ^ 2 : ℚ))
  let pts := (List.range img.h).flatMap fun y => (List.range img.w).map fun x => (x, y)
  let distOf : ℕ × ℕ → ℝ := fun xy =>
    Real.sqrt ((((xy.1 : ℚ) - cx) ^ 2 + ((xy.2 : ℚ) - cy) ^ 2 : ℚ)) / maxDist
  let lumOf : ℕ × ℕ → ℚ := fun xy =>
    let c := getPixel img xy.1 xy.2
    luminance c.1 c.2.1 c.2.2
  let centerPixels := pts.filter fun xy => decide (distOf xy < 35/100)
  let edgePixels := pts.filter fun xy => decide (distOf xy > 65/100)
  let avgCenter : ℚ := (centerPixels.map lumOf).sum /
    ((if centerPixels.length = 0 then 1 else centerPixels.length : ℕ) : ℚ)
  let avgEdge : ℚ := (edgePixels.map lumOf).sum /
    ((if edgePixels.length = 0 then 1 else edgePixels.length : ℕ) : ℚ)
  let diff : ℚ := max 0 (avgCenter - avgEdge)
  let strength : ℚ := min 1 (diff / (4/10))
  { detected := decide (strength > 1/10), strength := round2q strength }

inductive Temperature | cool | neutral | warm
deriving DecidableEq

inductive Brightness | dark | mediumDark | medium | mediumBright | bright
deriving DecidableEq

structure MoodInfo where
  temperature : Temperature
  brightness : Brightness
deriving DecidableEq

/-- `detectMood`: brightness from mean normalised luminance (thresholds
0.2 / 0.35 / 0.55 / 0.75; an empty image gives `0/0 = NaN`, which falls
through every `<` to `bright`); temperature from the mean hue of pixels
with saturation > 0.1, computed only when those pixels are strictly more
than 5% of the image — warm when the mean hue is in `[0, 70]` or
`>= 300`, cool in `[160, 280]`, else neutral.  (The accumulated total
saturation is never read by the source either.) -/
def detectMood (img : Img) : MoodInfo :=
  let pts := (List.range img.h).flatMap fun y => (List.range img.w).map fun x => (x, y)
  let pixelCount := img.w * img.h
  let hslOf : ℕ × ℕ → ℚ × ℚ × ℚ := fun xy =>
    let c := getPixel img xy.1 xy.2
    rgbToHsl c.1 c.2.1 c.2.2
  let totalLum : ℚ := (pts.map fun xy =>
    let c := getPixel img xy.1 xy.2
    luminance c.1 c.2.1 c.2.2).sum
  let satPts := pts.filter fun xy => decide ((hslOf xy).2.1 > 1/10)
  let totalHue : ℚ := (satPts.map fun xy => (hslOf xy).1).sum
  let saturatedCount := satPts.length
  let avgLum := totalLum / (pixelCount : ℚ)
  let temperature : Temperature :=
    if (saturatedCount : ℚ) > (pixelCount : ℚ) * (5/100) then
      let avgHue := totalHue / (saturatedCount : ℚ)
      if (avgHue ≥ 0 ∧ avgHue ≤ 70) ∨ avgHue ≥ 300 then .warm
      else if avgHue ≥ 160 ∧ avgHue ≤ 280 then .cool
      else .neutral
    else .neutral
  let brightness : Brightness :=
    if pixelCount = 0 then .bright
    else if avgLum < 1/5 then .dark
    else if avgLum < 35/100 then .mediumDark
    else if avgLum < 55/100 then .medium
    else if avgLum < 3/4 then .mediumBright
    else .bright
  { temperature, brightness }

/-! ## Shape data model (`src/types.ts`, `src/analyzer/shape-analyzer.ts`) -/

inductive ShapeType | wave | wisp | veil | angularVeil | ribbon | petal
deriving DecidableEq

inductive ShapeStyle | blobby | wispy | wavy | angular | organic | mixed
deriving DecidableEq

structure ShapeContour where
  type : ShapeType
  position : ℝ × ℝ
  direction : ℤ
  curvature : ℚ
  thickness : ℚ
  blur : ℚ
  color : ℤ
  opacity : ℚ
  amplitude : Option ℚ := Option.none
  frequency : Option ℕ := Option.none
  startPoint : Option (ℚ × ℚ) := Option.none
  endPoint : Option (ℝ × ℝ) := Option.none
  tipPoint : Option (ℝ × ℝ) := Option.none
  bodyWidth : Option ℚ := Option.none
  vertices : Option (List (ℚ × ℚ)) := Option.none

structure ShapeInfo where
  complexity : ℚ
  flowDirection : ℤ
  style : ShapeStyle
  contours : List ShapeContour

/-- The per-cluster geometry record `analyzeGeometry` produces.  Field
types follow what the source computes: quantities passing through
`sqrt`/`acos` are real; `area`, `sinuosity`, `avgThickness`,
`edgeStraightness` are rational by construction; the rounded
`minHullAngle` and `majorAxisAngle` are integers. -/
structure ClusterGeometry where
  pixels : List (ℝ × ℝ)
  centroid : ℝ × ℝ
  eigenvalue1 : ℝ
  eigenvalue2 : ℝ
  majorAxisAngle : ℤ
  majorAxis : ℝ × ℝ
  minorAxis : ℝ × ℝ
  elongation : ℝ
  area : ℚ
  hull : List (ℝ × ℝ)
  convexity : ℝ
  minHullAngle : ℤ
  tipPoint : Option (ℝ × ℝ)
  sinuosity : ℚ
  avgThickness : ℚ
  edgeStraightness : ℚ

open Classical in
/-- `classifyShape`: the fixed-order rule chain; `Option.none` means no
organic type matched (the cluster stays a plain blob and, in
`analyzeShapes`, contributes no contour). -/
noncomputable def classifyShape (g : ClusterGeometry) : Option ShapeType :=
  if g.convexity < 7/10 ∧ g.minHullAngle < 70 ∧ g.tipPoint ≠ Option.none ∧
      g.elongation > 13/10 ∧ g.elongation < 5 then some .petal
  else if g.elongation > 5/2 ∧ g.sinuosity > 12/100 then some .wave
  else if g.elongation > 7/2 ∧ g.avgThickness < 6/100 then some .wisp
  else if g.elongation > 5/2 ∧ g.avgThickness ≥ 6/100 ∧ g.sinuosity < 12/100 then
    some .ribbon
  else if g.area > 6/100 ∧ g.elongation < 28/10 ∧ g.edgeStraightness ≥ 1/2 then
    some .angularVeil
  else if g.area > 6/100 ∧ g.elongation < 28/10 ∧ g.edgeStraightness < 1/2 then
    some .veil
  else Option.none

/-! ## Strategy classifier (`src/analyzer/strategy-classifier.ts`) -/

inductive GradientStrategy | simple | mesh | hybrid | organic
deriving DecidableEq

/-- `type ∈ {wave, wisp, ribbon, petal}` — contours with real geometric
features, as opposed to the generic veils. -/
def isDistinctive (t : ShapeType) : Bool :=
  t == .wave || t == .wisp || t == .ribbon || t == .petal

/-- `Math.max(...colors.map(c => c.edgeSharpness))`: a fold from
`-Infinity` (`⊥`), so the empty list gives `⊥`, over which every
threshold comparison is false — exactly the JS NaN-free semantics
here. -/
def maxEdgeSharpness (colors : List ColorRegion) : WithBot ℚ :=
  (colors.map fun c => ((c.edgeSharpness : ℚ) : WithBot ℚ)).foldl max ⊥

/-- The organic gate of `classifyStrategy` (lines 37-91): style not
blobby, at least two contours, and any of the six signals
(`distinctiveContours = contours.filter (isDistinctive ∘ type)`,
`waveCount`/`petalCount` filter it further, `contourTypes` is the set
of types, written as the deduplicated type list). -/
def organicGate (colors : List ColorRegion) (s : ShapeInfo) : Prop :=
  s.style ≠ .blobby ∧ 2 ≤ s.contours.length ∧
  (((1/4 : ℚ) : WithBot ℚ) < maxEdgeSharpness colors ∨
   (s.complexity > 3/5 ∧ ((12/100 : ℚ) : WithBot ℚ) < maxEdgeSharpness colors) ∨
   ((2 ≤ ((s.contours.filter fun c => isDistinctive c.type).filter
        fun c => c.type == ShapeType.wave).length ∨
     2 ≤ ((s.contours.filter fun c => isDistinctive c.type).filter
        fun c => c.type == ShapeType.petal).length) ∧
     ((1/10 : ℚ) : WithBot ℚ) < maxEdgeSharpness colors) ∨
   (5 ≤ colors.length ∧
     1 ≤ (s.contours.filter fun c => isDistinctive c.type).length ∧
     3 ≤ s.contours.length ∧
     ((1/10 : ℚ) : WithBot ℚ) < maxEdgeSharpness colors) ∨
   3 ≤ (s.contours.filter fun c => isDistinctive c.type).length ∨
   (3 ≤ (s.contours.map ShapeContour.type).dedup.length ∧
     ((1/10 : ℚ) : WithBot ℚ) < maxEdgeSharpness colors))

open Classical in
/-- `classifyStrategy` after the organic gate did not fire: the
region-count / spatial-linearity / sharpness-range / dominant-base
decision chain.  The `Math.min`/`Math.max` spreads are folds seeded
from the first element; the guarding `colors.length <= 2` early return
makes the list non-empty wherever they are read. -/
noncomputable def classifyRest (colors : List ColorRegion) : GradientStrategy :=
  if colors.length ≤ 2 then .simple
  else
    let regionCount := colors.length
    let n : ℚ := (colors.length : ℚ)
    let xs := colors.map fun c => c.position.1
    let ys := colors.map fun c => c.position.2
    let meanX := xs.sum / n
    let meanY := ys.sum / n
    let cxx := (xs.map fun x => (x - meanX) ^ 2).sum / n
    let cyy := (ys.map fun y => (y - meanY) ^ 2).sum / n
    let cxy := (colors.map fun c =>
      (c.position.1 - meanX) * (c.position.2 - meanY)).sum / n
    let trace := cxx + cyy
    let det := cxx * cyy - cxy * cxy
    let disc : ℝ := Real.sqrt ((max 0 (trace * trace / 4 - det) : ℚ))
    let eigen1 : ℝ := (trace : ℝ) / 2 + disc
    let eigen2 : ℝ := (trace : ℝ) / 2 - disc
    let totalVariance := eigen1 + eigen2
    let linearity : ℝ := if totalVariance > 0 then eigen1 / totalVariance else 1/2
    let sharps := colors.map ColorRegion.edgeSharpness
    let minSharpness : ℚ := sharps.foldl min (sharps.headD 0)
    let maxSharpness : ℚ := sharps.foldl max (sharps.headD 0)
    let sharpnessRange := maxSharpness - minSharpness
    let weights := colors.map ColorRegion.weight
    let maxWeight : ℚ := weights.foldl max (weights.headD 0)
    let hasDominantBase := maxWeight > 1/2
    if regionCount ≤ 3 ∧ linearity > 3/4 ∧ sharpnessRange < 3/10 then .simple
    else if 5 ≤ regionCount ∧ linearity < 13/20 ∧ ¬hasDominantBase then .mesh
    else if hasDominantBase ∨ sharpnessRange > 2/5 then .hybrid
    else if 4 ≤ regionCount ∧ linearity < 7/10 then .mesh
    else .hybrid

open Classical in
/-- `classifyStrategy(colors, shapes?)`: organic when the gate fires
(which requires `shapes` to be present), else the priority-2 chain. -/
noncomputable def classifyStrategy (colors : List ColorRegion)
    (shapes : Option ShapeInfo) : GradientStrategy :=
  match shapes with
  | some s =>
      if organicGate colors s then .organic else classifyRest colors
  | Option.none => classifyRest colors

/-! ## Orchestrator (`src/analyzer/index.ts`, the `analyzeImage`
concatenated at the end of the shape-analyzer source) -/

structure GradientSpec where
  colors : List ColorRegion
  noise : NoiseInfo
  blur : BlurInfo
  vignette : VignetteInfo
  dimensions : ℕ × ℕ
  mood : MoodInfo
  strategy : GradientStrategy
  shapes : Option ShapeInfo := Option.none

/-- `analyzeImage` after the (external) image load: extract colours,
run the three independent analysers, recompute assignments, annotate
edge sharpness, classify the strategy.  Note what the source does: it
never calls `analyzeShapes`, it calls `classifyStrategy(colors)` with
the shapes argument omitted, and the returned record has no `shapes`
entry.  The k-means++ randomness is abstracted by `seeds`; the
cluster-count parameter only determines how many seeds are drawn. -/
noncomputable def analyzeImage (img : Img) (seeds : List ℕ) : GradientSpec :=
  let colors := extractColors img seeds 20
  let noise := analyzeNoise img
  let blur := analyzeBlur img
  let vignette := detectVignette img
  let mood := detectMood img
  let assigns := assignPixelsToClusters img colors
  let colors2 := computeEdgeSharpness img colors assigns
  let strategy := classifyStrategy colors2 Option.none
  { colors := colors2, noise, blur, vignette,
    dimensions := (img.ow, img.oh), mood, strategy }

/-! ## Spec-side definitions

The frozen claims are formalised against the following definitions,
written from the claims' words (refinement targets, to be compared
with the source embeddings above). -/

def defaultRegion : ColorRegion :=
  { hex := 0, rgb := (0, 0, 0), position := (0, 0), weight := 0,
    spread := 0, edgeSharpness := 0 }

/-- C3's "distinctive" contour count: type wave, wisp, ribbon, or petal. -/
def C3distinctiveCount (s : ShapeInfo) : ℕ :=
  s.contours.countP fun c =>
    c.type == .wave || c.type == .wisp || c.type == .ribbon || c.type == .petal

/-- C3's condition, as the claim words it: shapes present (supplied
here), style not "blobby", contour count at least 2, and at least one
of the six listed signals. -/
def C3organicSpec (colors : List ColorRegion) (s : ShapeInfo) : Prop :=
  s.style ≠ .blobby ∧ 2 ≤ s.contours.length ∧
  (((1/4 : ℚ) : WithBot ℚ) < maxEdgeSharpness colors ∨
   (s.complexity > 3/5 ∧ ((12/100 : ℚ) : WithBot ℚ) < maxEdgeSharpness colors) ∨
   ((2 ≤ s.contours.countP (fun c => c.type == .wave) ∨
     2 ≤ s.contours.countP (fun c => c.type == .petal)) ∧
     ((1/10 : ℚ) : WithBot ℚ) < maxEdgeSharpness colors) ∨
   (5 ≤ colors.length ∧ 1 ≤ C3distinctiveCount s ∧ 3 ≤ s.contours.length ∧
     ((1/10 : ℚ) : WithBot ℚ) < maxEdgeSharpness colors) ∨
   3 ≤ C3distinctiveCount s ∨
   (3 ≤ (s.contours.map ShapeContour.type).toFinset.card ∧
     ((1/10 : ℚ) : WithBot ℚ) < maxEdgeSharpness colors))

/-- C4's rule table, in the order the claim lists the rules. -/
def C4rules : List ((ClusterGeometry → Prop) × ShapeType) :=
  [(fun g => g.convexity < 7/10 ∧ g.minHullAngle < 70 ∧ g.tipPoint.isSome ∧
      13/10 < g.elongation ∧ g.elongation < 5, .petal),
   (fun g => 5/2 < g.elongation ∧ 12/100 < g.sinuosity, .wave),
   (fun g => 7/2 < g.elongation ∧ g.avgThickness < 6/100, .wisp),
   (fun g => 5/2 < g.elongation ∧ 6/100 ≤ g.avgThickness ∧ g.sinuosity < 12/100,
     .ribbon),
   (fun g => 6/100 < g.area ∧ g.elongation < 28/10 ∧ 1/2 ≤ g.edgeStraightness,
     .angularVeil),
   (fun g => 6/100 < g.area ∧ g.elongation < 28/10 ∧ g.edgeStraightness < 1/2,
     .veil)]

open Classical in
/-- First matching rule wins; no match means no contour (a plain blob). -/
noncomputable def firstMatch (g : ClusterGeometry) :
    List ((ClusterGeometry → Prop) × ShapeType) → Option ShapeType
  | [] => Option.none
  | r :: rs => if r.1 g then some r.2 else firstMatch g rs

/-- C5's boundary-pixel set of region `c`: the (interior) pixels of `c`
whose assignment differs from at least one 4-neighbour — the gradient
stencil `lum(x±1, y), lum(x, y±1)` requires all four neighbours to
exist, so boundary pixels live in `[1, w-1) × [1, h-1)`. -/
def boundaryPixels (img : Img) (assigns : List ℕ) (c : ℕ) : Finset (ℕ × ℕ) :=
  (Finset.range img.w ×ˢ Finset.range img.h).filter fun xy =>
    1 ≤ xy.1 ∧ xy.1 + 1 < img.w ∧ 1 ≤ xy.2 ∧ xy.2 + 1 < img.h ∧
    assigns.getD (xy.2 * img.w + xy.1) 0 = c ∧
    (assigns.getD ((xy.2 - 1) * img.w + xy.1) 0 ≠ c ∨
     assigns.getD ((xy.2 + 1) * img.w + xy.1) 0 ≠ c ∨
     assigns.getD (xy.2 * img.w + (xy.1 - 1)) 0 ≠ c ∨
     assigns.getD (xy.2 * img.w + (xy.1 + 1)) 0 ≠ c)

def clamp01 (x : ℝ) : ℝ := max 0 (min 1 x)

/-- C5's edge sharpness of region `c`: the average gradient magnitude
over the region's boundary pixels, divided by 50, clamped to `[0, 1]`
and rounded to 2 decimals; 0 when there are no boundary pixels. -/
noncomputable def C5sharpness (img : Img) (assigns : List ℕ) (c : ℕ) : ℚ :=
  let B := boundaryPixels img assigns c
  if B.card = 0 then 0
  else round2r (clamp01 (((∑ p ∈ B, gradMag img p.1 p.2) / (B.card : ℝ)) / 50))

/-- C7's level thresholds on the normalised Laplacian variance. -/
def C7level (nv : ℚ) : BlurLevel :=
  if 1/2 < nv then .none
  else if 1/4 < nv then .light
  else if 1/10 < nv then .medium
  else .heavy

/-- The hues of the pixels with saturation above 0.1. -/
def C9satHues (img : Img) : List ℚ :=
  ((((List.range img.h).flatMap fun y => (List.range img.w).map fun x => (x, y)).map
      fun xy =>
        let c := getPixel img xy.1 xy.2
        rgbToHsl c.1 c.2.1 c.2.2).filter fun t => decide (t.2.1 > 1/10)).map Prod.fst

/-- C9's hue classification: warm on `[0,70] ∪ [300,360)`, cool on
`[160,280]`, else neutral. -/
def C9classify (hue : ℚ) : Temperature :=
  if (0 ≤ hue ∧ hue ≤ 70) ∨ (300 ≤ hue ∧ hue < 360) then .warm
  else if 160 ≤ hue ∧ hue ≤ 280 then .cool
  else .neutral

/-- C9 as the claim words it: a non-default temperature as soon as the
saturated pixels are at least 5% of the image. -/
def C9temperature (img : Img) : Temperature :=
  let hues := C9satHues img
  if (5/100 : ℚ) * ((img.w * img.h : ℕ) : ℚ) ≤ (hues.length : ℚ) then
    C9classify (hues.sum / (hues.length : ℚ))
  else .neutral

/-- C9 amended: the code's gate is strict — strictly more than 5%. -/
def C9temperatureStrict (img : Img) : Temperature :=
  let hues := C9satHues img
  if (5/100 : ℚ) * ((img.w * img.h : ℕ) : ℚ) < (hues.length : ℚ) then
    C9classify (hues.sum / (hues.length : ℚ))
  else .neutral

/-- The weights of `extractColors`, along the computable squared-distance
twin of the nearest-centroid loop (used to evaluate concrete runs). -/
def extractWeights (img : Img) (seeds : List ℕ) (maxIter : ℕ) : List ℚ :=
  let samples := mkSamples img
  let ca := kmeansRun nearestIdxQ img seeds maxIter
  (ca.1.enum.filter fun ci =>
      (clusterMembers samples ca.2 ci.1).length != 0).map
    fun ci => round2q (((clusterMembers samples ca.2 ci.1).length : ℚ) /
      (samples.length : ℚ))

/-- The RGB triple of pixel `p` (row-major) as rationals. -/
def pixRGB (img : Img) (p : ℕ) : ℚ × ℚ × ℚ :=
  let c := getPixel img (p % img.w) (p / img.w)
  ((c.1 : ℚ), (c.2.1 : ℚ), (c.2.2 : ℚ))

/-- A region's stored RGB triple as rationals. -/
def regRGB (r : ColorRegion) : ℚ × ℚ × ℚ :=
  ((r.rgb.1 : ℚ), (r.rgb.2.1 : ℚ), (r.rgb.2.2 : ℚ))

/-! ## Concrete inputs for witnesses and counterexamples -/

/-- A flat mid-grey 3x3 image. -/
def imgFlat3 : Img := { data := List.replicate 27 128, w := 3, h := 3 }

/-- A flat mid-grey 2x2 image (well-formed, but smaller than both the
5x5 box-blur window and the 3x3 Laplacian window). -/
def img2x2 : Img := { data := List.replicate 12 128, w := 2, h := 2 }

/-- A 5x4 image with exactly one fully saturated red pixel among 19
grey ones: the saturated pixels are exactly 5% of the image. -/
def imgC9 : Img := { data := 255 :: 0 :: 0 :: List.replicate 57 128, w := 5, h := 4 }

/-- An 8x5 image whose first 11 pixels carry 11 distinct reds and whose
other 29 pixels are black: 12 colour clusters of sizes 1,...,1,29. -/
def imgC2 : Img :=
  { data := (List.range 40).flatMap fun p =>
      if p < 11 then [20 * (p + 1), 0, 0] else [0, 0, 0],
    w := 8, h := 5 }

/-- Seeding choice for `imgC2`: one seed per distinct colour. -/
def seedsC2 : List ℕ := List.range 12

/-- A single red pixel. -/
def imgC10 : Img := { data := [255, 0, 0], w := 1, h := 1 }

/-- Two concrete colour regions. -/
def colorsC10 : List ColorRegion :=
  [{ hex := 0, rgb := (200, 0, 0), position := (0, 0), weight := 1,
     spread := 0, edgeSharpness := 0 },
   { hex := 0, rgb := (0, 0, 200), position := (0, 0), weight := 0,
     spread := 0, edgeSharpness := 0 }]

/-! ## Helper lemmas -/

/-- The priority-2 chain only ever returns simple, mesh or hybrid. -/
lemma classifyRest_ne_organic (colors : List ColorRegion) :
    classifyRest colors ≠ .organic := by
  unfold classifyRest
  split
  · simp
  · dsimp only
    split_ifs <;> simp

/-! ## C1 -/

set_option maxHeartbeats 1000000 in
/-- C1: the orchestrator `analyzeImage` never runs the ShapeAnalyzer —
the returned `GradientSpec` has no `shapes` (always `none`), the
strategy is classified with the shapes argument omitted, and therefore
the strategy can never be "organic".  This contradicts the claim (and
the spec's data flow), which has the orchestrator pass `ShapeInfo` to
the `StrategyClassifier` and surface it in the result. -/
theorem analyzeImage_no_shapes (img : Img) (seeds : List ℕ) :
    (analyzeImage img seeds).shapes = Option.none ∧
    (analyzeImage img seeds).strategy =
      classifyStrategy (analyzeImage img seeds).colors Option.none ∧
    (analyzeImage img seeds).strategy ≠ .organic := by
  refine ⟨rfl, rfl, ?_⟩
  exact classifyRest_ne_organic _

/-! ## C4 -/

/-- C4: `classifyShape` applies the rules in the claim's fixed order —
petal, wave, wisp, ribbon, angular-veil, veil — with the first matching
rule winning, and yields no organic shape when no rule matches. -/
theorem classifyShape_rule_order (g : ClusterGeometry) :
    classifyShape g = firstMatch g C4rules := by
  unfold classifyShape C4rules
  simp only [firstMatch]
  refine if_congr ?_ rfl (if_congr Iff.rfl rfl (if_congr Iff.rfl rfl
    (if_congr Iff.rfl rfl (if_congr Iff.rfl rfl (if_congr Iff.rfl rfl rfl)))))
  exact and_congr_right fun _ => and_congr_right fun _ =>
    and_congr Option.ne_none_iff_isSome (Iff.rfl)

/-! ## C3 -/

lemma distinctive_count_filter (s : ShapeInfo) :
    (s.contours.filter fun c => isDistinctive c.type).length =
      C3distinctiveCount s := by
  rw [C3distinctiveCount, List.countP_eq_length_filter]
  congr 1

lemma wave_count_filter (s : ShapeInfo) :
    ((s.contours.filter fun c => isDistinctive c.type).filter
      fun c => c.type == ShapeType.wave).length =
      s.contours.countP fun c => c.type == ShapeType.wave := by
  rw [List.filter_filter, List.countP_eq_length_filter]
  congr 1
  apply List.filter_congr
  intro c _
  have h : ∀ t : ShapeType, ((t == ShapeType.wave) && isDistinctive t) =
      (t == ShapeType.wave) := by intro t; cases t <;> rfl
  exact h c.type

lemma petal_count_filter (s : ShapeInfo) :
    ((s.contours.filter fun c => isDistinctive c.type).filter
      fun c => c.type == ShapeType.petal).length =
      s.contours.countP fun c => c.type == ShapeType.petal := by
  rw [List.filter_filter, List.countP_eq_length_filter]
  congr 1
  apply List.filter_congr
  intro c _
  have h : ∀ t : ShapeType, ((t == ShapeType.petal) && isDistinctive t) =
      (t == ShapeType.petal) := by intro t; cases t <;> rfl
  exact h c.type

lemma organicGate_iff_spec (colors : List ColorRegion) (s : ShapeInfo) :
    organicGate colors s ↔ C3organicSpec colors s := by
  unfold organicGate C3organicSpec
  simp only [wave_count_filter, petal_count_filter, distinctive_count_filter,
    List.card_toFinset]

/-- C3: `classifyStrategy` returns "organic" exactly when shapes are
provided, the style is not "blobby", there are at least 2 contours, and
at least one of the six signals of the claim holds (distinctive = wave,
wisp, ribbon or petal). -/
theorem classifyStrategy_organic_iff (colors : List ColorRegion)
    (shapes : Option ShapeInfo) :
    classifyStrategy colors shapes = .organic ↔
      ∃ s, shapes = some s ∧ C3organicSpec colors s := by
  cases shapes with
  | none =>
      simp only [classifyStrategy]
      constructor
      · intro h; exact absurd h (classifyRest_ne_organic colors)
      · rintro ⟨s, hs, -⟩; cases hs
  | some s =>
      simp only [classifyStrategy]
      by_cases hg : organicGate colors s
      · rw [if_pos hg]
        exact ⟨fun _ => ⟨s, rfl, (organicGate_iff_spec colors s).mp hg⟩, fun _ => rfl⟩
      · rw [if_neg hg]
        constructor
        · intro h; exact absurd h (classifyRest_ne_organic colors)
        · rintro ⟨s', hs', hspec⟩
          injection hs' with h'
          subst h'
          exact absurd ((organicGate_iff_spec colors s).mpr hspec) hg

/-! ## C7 -/

lemma laplacianValues_length (img : Img) :
    (laplacianValues img).length = (img.h - 2) * (img.w - 2) := by
  unfold laplacianValues
  rw [List.length_flatMap]
  have hconst : (List.length ∘ fun y => (List.range' 1 (img.w - 2)).map fun x =>
      pixelLum img x (y - 1) + pixelLum img x (y + 1) +
        pixelLum img (x - 1) y + pixelLum img (x + 1) y - 4 * pixelLum img x y) =
      fun _ => (img.w - 2) := by
    funext y
    simp
  rw [hconst, List.map_const', List.sum_replicate, smul_eq_mul, List.length_range']

lemma laplacianValues_flat (img : Img) (c : ℕ × ℕ × ℕ)
    (hflat : ∀ x, x < img.w → ∀ y, y < img.h → getPixel img x y = c) :
    ∀ v ∈ laplacianValues img, v = 0 := by
  intro v hv
  unfold laplacianValues at hv
  obtain ⟨y, hy, hv⟩ := List.mem_flatMap.mp hv
  obtain ⟨x, hx, rfl⟩ := List.mem_map.mp hv
  rw [List.mem_range'_1] at hy hx
  have hlum : ∀ a b, a < img.w → b < img.h → pixelLum img a b =
      (299 / 1000) * c.1 + (587 / 1000) * c.2.1 + (114 / 1000) * c.2.2 := by
    intro a b ha hb
    unfold pixelLum
    rw [hflat a ha b hb]
  rw [hlum x (y - 1) (by omega) (by omega), hlum x (y + 1) (by omega) (by omega),
    hlum (x - 1) y (by omega) (by omega), hlum (x + 1) y (by omega) (by omega),
    hlum x y (by omega) (by omega)]
  ring

/-- C7: on a buffer of at least 3x3, the blur level is derived from the
normalised Laplacian variance by the thresholds 0.5 (none) / 0.25
(light) / 0.1 (medium) / else heavy, and a buffer in which all pixels
are identical yields variance 0 and level "heavy". -/
theorem analyzeBlur_spec (img : Img) (hw : 3 ≤ img.w) (hh : 3 ≤ img.h) :
    (∃ v : ℚ, (analyzeBlur img).variance = some (round2q v) ∧
      (analyzeBlur img).level = C7level v) ∧
    (∀ c : ℕ × ℕ × ℕ,
      (∀ x, x < img.w → ∀ y, y < img.h → getPixel img x y = c) →
      (analyzeBlur img).variance = some 0 ∧ (analyzeBlur img).level = .heavy) := by
  have hlen : ¬(laplacianValues img).length = 0 := by
    rw [laplacianValues_length]
    exact Nat.mul_ne_zero (by omega) (by omega)
  constructor
  · simp only [analyzeBlur]
    rw [if_neg hlen]
    exact ⟨_, rfl, rfl⟩
  · intro c hflat
    have hz := laplacianValues_flat img c hflat
    have hsum : (laplacianValues img).sum = 0 := List.sum_eq_zero hz
    have hmean : (laplacianValues img).sum / ((laplacianValues img).length : ℚ) = 0 := by
      rw [hsum]; simp
    have hvar : ((laplacianValues img).map fun v =>
        (v - (laplacianValues img).sum / ((laplacianValues img).length : ℚ)) ^ 2).sum = 0 := by
      apply List.sum_eq_zero
      intro u hu
      obtain ⟨v, hv, rfl⟩ := List.mem_map.mp hu
      rw [hz v hv, hmean]
      ring
    have hnv : min (1 : ℚ)
        ((((laplacianValues img).map fun v =>
          (v - (laplacianValues img).sum / ((laplacianValues img).length : ℚ)) ^ 2).sum /
          ((laplacianValues img).length : ℚ)) / 1000) = 0 := by
      rw [hvar]
      norm_num
    simp only [analyzeBlur]
    rw [if_neg hlen]
    dsimp only
    rw [hnv]
    refine ⟨?_, ?_⟩
    · norm_num [round2q, jsRound]
    · norm_num

/-- C7 witness: the flat mid-grey 3x3 image is at least 3x3 and gets
variance 0 and level "heavy". -/
theorem analyzeBlur_spec_witness :
    3 ≤ imgFlat3.w ∧ 3 ≤ imgFlat3.h ∧
    (analyzeBlur imgFlat3).variance = some 0 ∧
    (analyzeBlur imgFlat3).level = .heavy :=
  ⟨by decide, by decide,
    (analyzeBlur_spec imgFlat3 (by decide) (by decide)).2 (128, 128, 128) (by decide)⟩

/-! ## C8 -/

/-- C8: the claimed pixel-count guards do not exist in the code.  On
the well-formed 2x2 buffer the residual and Laplacian lists are empty,
the JS code divides `0 / 0`, and `contrast`, `sharpness` (analyzeNoise)
and `variance` (analyzeBlur) all come out NaN (modelled `none`). -/
theorem smallBuffer_nan :
    (analyzeNoise img2x2).contrast = Option.none ∧
    (analyzeNoise img2x2).sharpness = Option.none ∧
    (analyzeBlur img2x2).variance = Option.none :=
  ⟨rfl, rfl, rfl⟩

/-! ## C9 -/

/-- The modelled `rgbToHsl` reports hues in `[0, 360)`. -/
lemma rgbToHsl_hue_bounds (r g b : ℕ) :
    0 ≤ (rgbToHsl r g b).1 ∧ (rgbToHsl r g b).1 < 360 := by
  unfold rgbToHsl
  dsimp only
  set r' : ℚ := (r : ℚ) / 255 with hr'
  set g' : ℚ := (g : ℚ) / 255 with hg'
  set b' : ℚ := (b : ℚ) / 255 with hb'
  have hr1 : r' ≤ max r' (max g' b') := le_max_left _ _
  have hg1 : g' ≤ max r' (max g' b') := le_trans (le_max_left _ _) (le_max_right _ _)
  have hb1 : b' ≤ max r' (max g' b') := le_trans (le_max_right _ _) (le_max_right _ _)
  have hr2 : min r' (min g' b') ≤ r' := min_le_left _ _
  have hg2 : min r' (min g' b') ≤ g' := le_trans (min_le_right _ _) (min_le_left _ _)
  have hb2 : min r' (min g' b') ≤ b' := le_trans (min_le_right _ _) (min_le_right _ _)
  by_cases heq : max r' (max g' b') = min r' (min g' b')
  · rw [if_pos heq]
    norm_num
  · rw [if_neg heq]
    have hmxmn : min r' (min g' b') ≤ max r' (max g' b') :=
      le_trans (min_le_left _ _) (le_max_left _ _)
    have hd : 0 < max r' (max g' b') - min r' (min g' b') := by
      rcases lt_or_eq_of_le hmxmn with h | h
      · linarith
      · exact absurd h.symm heq
    dsimp only
    split_ifs with h1 h2 h3
    · -- mx = r', g' < b'
      have hub : (g' - b') / (max r' (max g' b') - min r' (min g' b')) < 0 :=
        div_neg_of_neg_of_pos (by linarith) hd
      have hlb : (-1 : ℚ) ≤ (g' - b') / (max r' (max g' b') - min r' (min g' b')) := by
        rw [le_div_iff₀ hd]
        linarith
      constructor <;> nlinarith
    · -- mx = r', b' <= g'
      have hub : (g' - b') / (max r' (max g' b') - min r' (min g' b')) ≤ 1 := by
        rw [div_le_one hd]
        linarith
      have hlb : (0 : ℚ) ≤ (g' - b') / (max r' (max g' b') - min r' (min g' b')) :=
        div_nonneg (by linarith) (le_of_lt hd)
      constructor <;> nlinarith
    · -- mx = g'
      have hub : (b' - r') / (max r' (max g' b') - min r' (min g' b')) ≤ 1 := by
        rw [div_le_one hd]
        linarith
      have hlb : (-1 : ℚ) ≤ (b' - r') / (max r' (max g' b') - min r' (min g' b')) := by
        rw [le_div_iff₀ hd]
        linarith
      constructor <;> nlinarith
    · -- mx = b'
      have hub : (r' - g') / (max r' (max g' b') - min r' (min g' b')) ≤ 1 := by
        rw [div_le_one hd]
        linarith
      have hlb : (-1 : ℚ) ≤ (r' - g') / (max r' (max g' b') - min r' (min g' b')) := by
        rw [le_div_iff₀ hd]
        linarith
      constructor <;> nlinarith

lemma list_sum_le_of_lt {l : List ℚ} (h : ∀ x ∈ l, x < 360) :
    l.sum ≤ 360 * l.length := by
  induction l with
  | nil => simp
  | cons a t ih =>
      have ha := h a (List.mem_cons_self a t)
      have ht := ih fun x hx => h x (List.mem_cons_of_mem a hx)
      simp only [List.sum_cons, List.length_cons]
      push_cast
      linarith

/-- The mean of a non-empty list of values in `[0, 360)` is in `[0, 360)`. -/
lemma list_mean_mem {l : List ℚ} (hl : l ≠ [])
    (h : ∀ x ∈ l, 0 ≤ x ∧ x < 360) :
    0 ≤ l.sum / (l.length : ℚ) ∧ l.sum / (l.length : ℚ) < 360 := by
  have hlen : (0 : ℚ) < (l.length : ℚ) := by
    have := List.length_pos.mpr hl
    exact_mod_cast this
  constructor
  · exact div_nonneg (List.sum_nonneg fun x hx => (h x hx).1) (le_of_lt hlen)
  · rw [div_lt_iff₀ hlen]
    rcases List.exists_cons_of_ne_nil hl with ⟨a, t, rfl⟩
    have ha := h a (List.mem_cons_self a t)
    have ht : t.sum ≤ 360 * t.length :=
      list_sum_le_of_lt fun x hx => (h x (List.mem_cons_of_mem a hx)).2
    simp only [List.sum_cons, List.length_cons]
    push_cast
    linarith

/-- `detectMood`'s temperature, re-expressed over the hue list
`C9satHues` (the pixelwise accumulation commutes with mapping to HSL
first). -/
lemma detectMood_temperature_form (img : Img) :
    (detectMood img).temperature =
      (if ((img.w * img.h : ℕ) : ℚ) * (5/100) < ((C9satHues img).length : ℚ) then
        if ((C9satHues img).sum / ((C9satHues img).length : ℚ) ≥ 0 ∧
            (C9satHues img).sum / ((C9satHues img).length : ℚ) ≤ 70) ∨
            (C9satHues img).sum / ((C9satHues img).length : ℚ) ≥ 300 then .warm
        else if (C9satHues img).sum / ((C9satHues img).length : ℚ) ≥ 160 ∧
            (C9satHues img).sum / ((C9satHues img).length : ℚ) ≤ 280 then .cool
        else .neutral
      else .neutral) := by
  have hlist : C9satHues img =
      ((((List.range img.h).flatMap fun y =>
          (List.range img.w).map fun x => (x, y)).filter fun xy =>
            decide ((rgbToHsl (getPixel img xy.1 xy.2).1 (getPixel img xy.1 xy.2).2.1
              (getPixel img xy.1 xy.2).2.2).2.1 > 1/10)).map fun xy =>
        (rgbToHsl (getPixel img xy.1 xy.2).1 (getPixel img xy.1 xy.2).2.1
          (getPixel img xy.1 xy.2).2.2).1) := by
    unfold C9satHues
    rw [List.filter_map, List.map_map]
    rfl
  rw [hlist]
  simp only [List.length_map]
  rfl

/-- C9 amended: `detectMood` computes a non-default temperature only
when the saturated pixels are STRICTLY MORE than 5% of the image; the
mean-hue classification (warm on `[0,70] ∪ [300,360)`, cool on
`[160,280]`, else neutral) is as the claim states. -/
theorem detectMood_temperature_gate (img : Img) :
    (detectMood img).temperature = C9temperatureStrict img := by
  rw [detectMood_temperature_form]
  unfold C9temperatureStrict
  dsimp only
  by_cases hc : ((img.w * img.h : ℕ) : ℚ) * (5/100) < ((C9satHues img).length : ℚ)
  · rw [if_pos hc]
    have hc2 : (5/100 : ℚ) * ((img.w * img.h : ℕ) : ℚ) < ((C9satHues img).length : ℚ) := by
      linarith
    rw [if_pos hc2]
    have hne : C9satHues img ≠ [] := by
      intro h
      rw [h] at hc
      simp only [List.length_nil, Nat.cast_zero] at hc
      have : (0 : ℚ) ≤ ((img.w * img.h : ℕ) : ℚ) * (5/100) := by positivity
      linarith
    have hmem : ∀ x ∈ C9satHues img, 0 ≤ x ∧ x < 360 := by
      intro x hx
      unfold C9satHues at hx
      obtain ⟨t, ht, rfl⟩ := List.mem_map.mp hx
      obtain ⟨u, hu, rfl⟩ := List.mem_map.mp (List.mem_of_mem_filter ht)
      exact rgbToHsl_hue_bounds _ _ _
    have hH := list_mean_mem hne hmem
    unfold C9classify
    refine if_congr ?_ rfl (if_congr Iff.rfl rfl rfl)
    constructor
    · rintro (⟨h0, h70⟩ | h300)
      · exact Or.inl ⟨h0, h70⟩
      · exact Or.inr ⟨h300, hH.2⟩
    · rintro (⟨h0, h70⟩ | ⟨h300, h360⟩)
      · exact Or.inl ⟨h0, h70⟩
      · exact Or.inr h300
  · rw [if_neg hc]
    have hc2 : ¬((5/100 : ℚ) * ((img.w * img.h : ℕ) : ℚ) < ((C9satHues img).length : ℚ)) := by
      intro h
      exact hc (by linarith)
    rw [if_neg hc2]

/-- C9 counterexample: on the 5x4 image whose single saturated (red)
pixel is exactly 5% of the image, the claim's "at least 5%" gate with
mean hue 0 predicts "warm", but the code's strictly-greater gate keeps
the default "neutral". -/
theorem detectMood_five_percent_boundary :
    (detectMood imgC9).temperature = .neutral ∧ C9temperature imgC9 = .warm := by
  constructor
  · with_unfolding_all rfl
  · with_unfolding_all rfl

/-! ## C10 -/

lemma sqrt_le_sqrt_iff_of_nonneg {x y : ℝ} (hy : 0 ≤ y) :
    Real.sqrt x ≤ Real.sqrt y ↔ x ≤ y ∨ x ≤ 0 := by
  constructor
  · intro h
    by_cases hx : x ≤ 0
    · exact Or.inr hx
    · left
      by_contra hlt
      exact absurd (Real.sqrt_lt_sqrt hy (not_le.mp hlt)) (not_lt.mpr h)
  · rintro (h | h)
    · exact Real.sqrt_le_sqrt h
    · rw [Real.sqrt_eq_zero_of_nonpos h]
      exact Real.sqrt_nonneg y

lemma colorDistance_le_iff (p a b : ℚ × ℚ × ℚ) :
    colorDistance p a ≤ colorDistance p b ↔ colorDist2 p a ≤ colorDist2 p b := by
  unfold colorDistance
  rw [sqrt_le_sqrt_iff_of_nonneg (by exact_mod_cast colorDist2_nonneg p b)]
  constructor
  · rintro (h | h)
    · exact_mod_cast h
    · have := colorDist2_nonneg p a
      have h' : (colorDist2 p a : ℝ) ≤ 0 := h
      exact le_trans (by exact_mod_cast h') (by exact_mod_cast colorDist2_nonneg p b)
  · intro h
    exact Or.inl (by exact_mod_cast h)

lemma colorDistance_lt_iff (p a b : ℚ × ℚ × ℚ) :
    colorDistance p a < colorDistance p b ↔ colorDist2 p a < colorDist2 p b := by
  unfold colorDistance
  rw [sqrt_lt_sqrt_iff_of_nonneg (by exact_mod_cast colorDist2_nonneg p a)]
  exact_mod_cast Iff.rfl

lemma list_getD_map_range {β : Type} (n p : ℕ) (f : ℕ → β) (d : β) (hp : p < n) :
    ((List.range n).map f).getD p d = f p := by
  rw [List.getD_eq_getElem?_getD, List.getElem?_map, List.getElem?_range hp]
  rfl

lemma list_getD_map {α β : Type} (l : List α) (f : α → β) (j : ℕ)
    (hj : j < l.length) (d : α) (d' : β) :
    (l.map f).getD j d' = f (l.getD j d) := by
  rw [List.getD_eq_getElem?_getD, List.getElem?_map, List.getD_eq_getElem?_getD,
    List.getElem?_eq_getElem hj]
  rfl

/-- C10: `assignPixelsToClusters` returns one entry per pixel; each
entry is a valid index into the region list, namely the smallest index
among the regions at minimal Euclidean colour distance from that
pixel's RGB (an earlier index is only passed over for a strictly
smaller distance).  Being a pure function of `(img, colors)`, it is
deterministic by construction. -/
theorem assignPixelsToClusters_spec (img : Img) (colors : List ColorRegion)
    (hc : colors ≠ []) :
    (assignPixelsToClusters img colors).length = img.w * img.h ∧
    ∀ p, p < img.w * img.h →
      (assignPixelsToClusters img colors).getD p 0 < colors.length ∧
      (∀ j, j < colors.length →
        colorDistance (pixRGB img p)
            (regRGB (colors.getD ((assignPixelsToClusters img colors).getD p 0)
              defaultRegion)) ≤
          colorDistance (pixRGB img p) (regRGB (colors.getD j defaultRegion))) ∧
      (∀ j, j < (assignPixelsToClusters img colors).getD p 0 →
        colorDistance (pixRGB img p)
            (regRGB (colors.getD ((assignPixelsToClusters img colors).getD p 0)
              defaultRegion)) <
          colorDistance (pixRGB img p) (regRGB (colors.getD j defaultRegion))) := by
  have hlen : (assignPixelsToClusters img colors).length = img.w * img.h := by
    unfold assignPixelsToClusters assignPixelsToClustersP
    rw [List.length_map, List.length_range, Nat.mul_comm]
  refine ⟨hlen, ?_⟩
  intro p hp
  have hp' : p < img.h * img.w := by rwa [Nat.mul_comm]
  have hgd : (assignPixelsToClusters img colors).getD p 0 =
      nearestIdxQ (pixRGB img p) (colors.map regRGB) := by
    unfold assignPixelsToClusters assignPixelsToClustersP
    rw [nearestIdx_eq_Q, list_getD_map_range _ _ _ _ hp']
    rfl
  have hcands : colors.map regRGB ≠ [] := by
    intro h
    exact hc (List.map_eq_nil_iff.mp h)
  obtain ⟨hlt, hmin, hfirst⟩ := nearestIdxQ_spec (pixRGB img p) (colors.map regRGB) hcands
  rw [List.length_map] at hlt
  have hcand_at : ∀ j, j < colors.length →
      (colors.map regRGB).getD j (0, 0, 0) = regRGB (colors.getD j defaultRegion) :=
    fun j hj => list_getD_map colors regRGB j hj defaultRegion (0, 0, 0)
  refine ⟨hgd ▸ hlt, ?_, ?_⟩
  · intro j hj
    rw [hgd, colorDistance_le_iff, ← hcand_at _ hj, ← hcand_at _ (hgd ▸ hlt)]
    exact hmin j (by rw [List.length_map]; exact hj)
  · intro j hj
    rw [hgd] at hj
    rw [hgd, colorDistance_lt_iff, ← hcand_at _ (lt_trans hj (hgd ▸ hlt)),
      ← hcand_at _ (hgd ▸ hlt)]
    exact hfirst j hj

/-- C10 witness: the single red pixel against two concrete regions. -/
theorem assignPixelsToClusters_spec_witness :
    colorsC10 ≠ [] ∧
    ((assignPixelsToClusters imgC10 colorsC10).length = imgC10.w * imgC10.h ∧
    ∀ p, p < imgC10.w * imgC10.h →
      (assignPixelsToClusters imgC10 colorsC10).getD p 0 < colorsC10.length ∧
      (∀ j, j < colorsC10.length →
        colorDistance (pixRGB imgC10 p)
            (regRGB (colorsC10.getD ((assignPixelsToClusters imgC10 colorsC10).getD p 0)
              defaultRegion)) ≤
          colorDistance (pixRGB imgC10 p) (regRGB (colorsC10.getD j defaultRegion))) ∧
      (∀ j, j < (assignPixelsToClusters imgC10 colorsC10).getD p 0 →
        colorDistance (pixRGB imgC10 p)
            (regRGB (colorsC10.getD ((assignPixelsToClusters imgC10 colorsC10).getD p 0)
              defaultRegion)) <
          colorDistance (pixRGB imgC10 p) (regRGB (colorsC10.getD j defaultRegion)))) :=
  ⟨by simp [colorsC10], assignPixelsToClusters_spec imgC10 colorsC10 (by simp [colorsC10])⟩

/-! ## C5 -/

/-- `Finset.sum_subset` with the two index sets explicit. -/
lemma sum_subset_explicit {M : Type} [AddCommMonoid M] (s t : Finset ℕ) (f : ℕ → M)
    (h : s ⊆ t) (hf : ∀ x ∈ t, x ∉ s → f x = 0) :
    ∑ i ∈ s, f i = ∑ i ∈ t, f i :=
  Finset.sum_subset h hf

/-- A nested loop over the interior ranges with a conditional body is
the sum over the filtered coordinate product. -/
lemma ico_sum_eq_filter_sum {M : Type} [AddCommMonoid M] (w h : ℕ)
    (P : ℕ → ℕ → Prop) [∀ x y, Decidable (P x y)] (f : ℕ → ℕ → M) :
    (∑ y ∈ Finset.Ico 1 (h - 1), ∑ x ∈ Finset.Ico 1 (w - 1),
      if P x y then f x y else 0) =
    ∑ p ∈ (Finset.range w ×ˢ Finset.range h).filter
      (fun p => 1 ≤ p.1 ∧ p.1 + 1 < w ∧ 1 ≤ p.2 ∧ p.2 + 1 < h ∧ P p.1 p.2),
      f p.1 p.2 := by
  rw [Finset.sum_filter, Finset.sum_product]
  conv_rhs => rw [Finset.sum_comm]
  rw [← sum_subset_explicit (Finset.Ico 1 (h - 1)) (Finset.range h) _
    (by intro y hy; rw [Finset.mem_Ico] at hy; rw [Finset.mem_range]; omega) ?hz]
  case hz =>
    intro y hy hy'
    rw [Finset.mem_range] at hy
    rw [Finset.mem_Ico] at hy'
    apply Finset.sum_eq_zero
    intro x hx
    rw [if_neg]
    rintro ⟨-, -, h1, h2, -⟩
    omega
  apply Finset.sum_congr rfl
  intro y hy
  rw [Finset.mem_Ico] at hy
  rw [← sum_subset_explicit (Finset.Ico 1 (w - 1)) (Finset.range w) _
    (by intro x hx; rw [Finset.mem_Ico] at hx; rw [Finset.mem_range]; omega) ?hz2]
  case hz2 =>
    intro x hx hx'
    rw [Finset.mem_range] at hx
    rw [Finset.mem_Ico] at hx'
    rw [if_neg]
    rintro ⟨h1, h2, -⟩
    omega
  apply Finset.sum_congr rfl
  intro x hx
  rw [Finset.mem_Ico] at hx
  apply if_congr ?_ rfl rfl
  constructor
  · intro hP
    exact ⟨by omega, by omega, by omega, by omega, hP⟩
  · rintro ⟨-, -, -, -, hP⟩
    exact hP

lemma boundary_cond_iff (img : Img) (assigns : List ℕ) (c : ℕ) (x y : ℕ)
    (ha : assigns.getD (y * img.w + x) 0 = c) :
    (isBoundaryPix img assigns x y = true) ↔
      (assigns.getD ((y - 1) * img.w + x) 0 ≠ c ∨
       assigns.getD ((y + 1) * img.w + x) 0 ≠ c ∨
       assigns.getD (y * img.w + (x - 1)) 0 ≠ c ∨
       assigns.getD (y * img.w + (x + 1)) 0 ≠ c) := by
  unfold isBoundaryPix
  simp only [Bool.or_eq_true, bne_iff_ne]
  rw [ha]
  tauto

lemma gradCount_eq_card (img : Img) (assigns : List ℕ) (c : ℕ) :
    gradCount img assigns c = (boundaryPixels img assigns c).card := by
  unfold gradCount boundaryPixels
  rw [ico_sum_eq_filter_sum img.w img.h
    (fun x y => assigns.getD (y * img.w + x) 0 = c ∧ isBoundaryPix img assigns x y)
    (fun _ _ => 1), Finset.card_eq_sum_ones]
  apply Finset.sum_congr ?_ fun _ _ => rfl
  apply Finset.filter_congr
  intro p hp
  simp only [and_congr_right_iff]
  intro h1 h2 h3 h4
  exact fun ha => boundary_cond_iff img assigns c p.1 p.2 ha

lemma gradSum_eq_sum (img : Img) (assigns : List ℕ) (c : ℕ) :
    gradSum img assigns c = ∑ p ∈ boundaryPixels img assigns c, gradMag img p.1 p.2 := by
  unfold gradSum boundaryPixels
  rw [ico_sum_eq_filter_sum img.w img.h
    (fun x y => assigns.getD (y * img.w + x) 0 = c ∧ isBoundaryPix img assigns x y)
    (fun x y => gradMag img x y)]
  apply Finset.sum_congr ?_ fun _ _ => rfl
  apply Finset.filter_congr
  intro p hp
  simp only [and_congr_right_iff]
  intro h1 h2 h3 h4
  exact fun ha => boundary_cond_iff img assigns c p.1 p.2 ha

lemma computeEdgeSharpness_getD (img : Img) (colors : List ColorRegion)
    (assigns : List ℕ) (c : ℕ) (hc : c < colors.length) :
    (computeEdgeSharpness img colors assigns).getD c defaultRegion =
      { colors.getD c defaultRegion with
        edgeSharpness := edgeSharpnessOf img assigns c } := by
  unfold computeEdgeSharpness
  have hlen : c < colors.enum.length := by rwa [List.enum_length]
  rw [list_getD_map colors.enum _ c hlen (c, colors.getD c defaultRegion) defaultRegion]
  have henum : colors.enum.getD c (c, colors.getD c defaultRegion) =
      (c, colors.getD c defaultRegion) := by
    rw [List.getD_eq_getElem?_getD, List.getElem?_enum, List.getD_eq_getElem?_getD,
      List.getElem?_eq_getElem hc]
    rfl
  rw [henum]

/-- C5: the value `computeEdgeSharpness` stores for region `c` is the
average of the luminance gradient magnitude `sqrt(gx^2+gy^2)` over the
region's 4-connected boundary pixels, divided by 50, clamped to
`[0, 1]` and rounded to 2 decimals, and 0 when the region has no
boundary pixels. -/
theorem computeEdgeSharpness_spec (img : Img) (colors : List ColorRegion)
    (assigns : List ℕ) (c : ℕ) (hc : c < colors.length) :
    ((computeEdgeSharpness img colors assigns).getD c defaultRegion).edgeSharpness =
      C5sharpness img assigns c := by
  rw [computeEdgeSharpness_getD img colors assigns c hc]
  show edgeSharpnessOf img assigns c = C5sharpness img assigns c
  unfold edgeSharpnessOf C5sharpness
  rw [gradSum_eq_sum, gradCount_eq_card]
  by_cases h0 : (boundaryPixels img assigns c).card = 0
  · rw [if_pos h0, if_pos h0]
  · rw [if_neg h0, if_neg h0]
    congr 1
    have hsum : (0 : ℝ) ≤ ∑ p ∈ boundaryPixels img assigns c, gradMag img p.1 p.2 :=
      Finset.sum_nonneg fun p _ => Real.sqrt_nonneg _
    have hx : (0 : ℝ) ≤
        ((∑ p ∈ boundaryPixels img assigns c, gradMag img p.1 p.2) /
          ((boundaryPixels img assigns c).card : ℝ)) / 50 := by
      positivity
    unfold clamp01
    rw [max_eq_right (le_min (by norm_num) hx)]

/-- C5 witness: a concrete image, region list and assignment array with
a valid region index. -/
theorem computeEdgeSharpness_spec_witness :
    0 < colorsC10.length ∧
    ((computeEdgeSharpness img2x2 colorsC10
        (List.replicate 4 0)).getD 0 defaultRegion).edgeSharpness =
      C5sharpness img2x2 (List.replicate 4 0) 0 :=
  ⟨by decide, computeEdgeSharpness_spec img2x2 colorsC10 (List.replicate 4 0) 0
    (by decide)⟩

/-! ## Shared k-means bookkeeping lemmas (for C2 and C6) -/

lemma insertByWeight_perm (r : ColorRegion) (l : List ColorRegion) :
    (insertByWeight r l).Perm (r :: l) := by
  induction l with
  | nil => exact List.Perm.refl _
  | cons x xs ih =>
      unfold insertByWeight
      split
      · exact List.Perm.refl _
      · exact (List.Perm.cons x ih).trans (List.Perm.swap r x xs)

lemma sortByWeightDesc_perm (l : List ColorRegion) :
    (sortByWeightDesc l).Perm l := by
  suffices h : ∀ acc : List ColorRegion,
      (l.foldl (fun acc r => insertByWeight r acc) acc).Perm (acc ++ l) by
    simpa using h []
  induction l with
  | nil => intro acc; simp
  | cons x t ih =>
      intro acc
      simp only [List.foldl_cons]
      refine (ih (insertByWeight x acc)).trans ?_
      exact (List.Perm.append_right t (insertByWeight_perm x acc)).trans
        List.perm_middle.symm

lemma round2q_close (q : ℚ) : |round2q q - q| ≤ 1/200 := by
  unfold round2q jsRound
  have h1 : ((⌊q * 100 + 1/2⌋ : ℤ) : ℚ) ≤ q * 100 + 1/2 := Int.floor_le _
  have h2 : q * 100 + 1/2 - 1 < ((⌊q * 100 + 1/2⌋ : ℤ) : ℚ) := Int.sub_one_lt_floor _
  rw [abs_le]
  constructor <;> [linarith; linarith]

lemma sum_round2q_close (l : List ℚ) :
    |(l.map round2q).sum - l.sum| ≤ (l.length : ℚ) / 200 := by
  induction l with
  | nil => simp
  | cons x t ih =>
      simp only [List.map_cons, List.sum_cons, List.length_cons]
      have h := round2q_close x
      have habs : |round2q x + (t.map round2q).sum - (x + t.sum)| ≤
          |round2q x - x| + |(t.map round2q).sum - t.sum| := by
        have := abs_add (round2q x - x) ((t.map round2q).sum - t.sum)
        calc |round2q x + (t.map round2q).sum - (x + t.sum)| =
            |(round2q x - x) + ((t.map round2q).sum - t.sum)| := by ring_nf
          _ ≤ _ := this
      push_cast
      linarith

lemma zip_filter_snd_length (c : ℕ) :
    ∀ (s : List PixelSample) (a : List ℕ), a.length = s.length →
    ((s.zip a).filter fun sa => sa.2 == c).length = a.countP (· == c) := by
  intro s
  induction s with
  | nil =>
      intro a ha
      rw [List.length_eq_zero.mp ha]
      rfl
  | cons x t ih =>
      intro a ha
      cases a with
      | nil => simp at ha
      | cons b bs =>
          simp only [List.length_cons] at ha
          simp only [List.zip_cons_cons, List.filter_cons, List.countP_cons]
          by_cases hb : (b == c) = true
          · simp [hb, ih bs (by omega)]
          · simp [hb, ih bs (by omega)]

lemma sum_countP_range (a : List ℕ) (L : ℕ) (hv : ∀ x ∈ a, x < L) :
    ∑ c ∈ Finset.range L, a.countP (· == c) = a.length := by
  induction a with
  | nil => simp
  | cons x t ih =>
      have hx := hv x (List.mem_cons_self x t)
      have ht := ih fun y hy => hv y (List.mem_cons_of_mem _ hy)
      simp only [List.countP_cons, List.length_cons]
      rw [Finset.sum_add_distrib, ht]
      have hone : ∑ c ∈ Finset.range L, (if (x == c) = true then 1 else 0) = 1 := by
        have : ∀ c, (if (x == c) = true then 1 else 0) = if c = x then 1 else 0 := by
          intro c
          by_cases h : c = x
          · simp [h]
          · simp [h, Ne.symm h, beq_iff_eq]
        rw [Finset.sum_congr rfl fun c _ => this c, Finset.sum_ite_eq' (Finset.range L) x fun _ => 1]
        simp [Finset.mem_range.mpr hx]
      omega

lemma list_filter_map_sum {M : Type} [AddCommMonoid M] (l : List ℕ) (p : ℕ → Bool)
    (f : ℕ → M) (hz : ∀ x ∈ l, p x = false → f x = 0) :
    ((l.filter p).map f).sum = (l.map f).sum := by
  induction l with
  | nil => rfl
  | cons x t ih =>
      have ht := ih fun y hy => hz y (List.mem_cons_of_mem _ hy)
      simp only [List.filter_cons, List.map_cons, List.sum_cons]
      by_cases hx : p x = true
      · simp only [hx, if_true, List.map_cons, List.sum_cons, ht]
      · rw [Bool.not_eq_true] at hx
        simp only [hx, Bool.false_eq_true, if_false, ht, List.map_cons, List.sum_cons,
          hz x (List.mem_cons_self x t) hx, zero_add]

lemma range_sum_eq_finset_sum {M : Type} [AddCommMonoid M] (n : ℕ) (f : ℕ → M) :
    ((List.range n).map f).sum = ∑ c ∈ Finset.range n, f c := by
  induction n with
  | zero => rfl
  | succ m ih =>
      rw [Finset.sum_range_succ, List.range_succ, List.map_append, List.sum_append, ih]
      simp

lemma enum_filter_map_fst {α β : Type} (l : List α) (p : ℕ → Bool) (f : ℕ → β) :
    ((l.enum.filter fun ci => p ci.1).map fun ci => f ci.1) =
      ((List.range l.length).filter p).map f := by
  have h1 : (List.range l.length).filter p = (l.enum.map Prod.fst).filter p := by
    rw [List.enum_map_fst]
  rw [h1, List.filter_map, List.map_map]
  rfl

lemma nearestIdx_lt (p : ℚ × ℚ × ℚ) (cands : List (ℚ × ℚ × ℚ)) (hc : cands ≠ []) :
    nearestIdx p cands < cands.length := by
  rw [nearestIdx_eq_Q]
  exact nearestIdxQ_lt_length p cands hc

lemma assignStep_fst_length (pick : ℚ × ℚ × ℚ → List (ℚ × ℚ × ℚ) → ℕ)
    (samples : List PixelSample) (cents : List Centroid) (assigns : List ℕ) :
    (assignStep pick samples cents assigns).1.length = samples.length := by
  unfold assignStep
  simp

lemma assignStep_fst_mem (pick : ℚ × ℚ × ℚ → List (ℚ × ℚ × ℚ) → ℕ)
    (hpick : ∀ p cands, cands ≠ [] → pick p cands < cands.length)
    (samples : List PixelSample) (cents : List Centroid) (assigns : List ℕ)
    (hc : cents ≠ []) :
    ∀ a ∈ (assignStep pick samples cents assigns).1, a < cents.length := by
  intro a ha
  unfold assignStep at ha
  simp only [List.mem_map] at ha
  obtain ⟨s, hs, rfl⟩ := ha
  have h := hpick s.rgbq (cents.map Centroid.rgbq)
    (fun hmap => hc (List.map_eq_nil_iff.mp hmap))
  rwa [List.length_map] at h

lemma recomputeCents_length (samples : List PixelSample) (assigns : List ℕ)
    (cents : List Centroid) :
    (recomputeCents samples assigns cents).length = cents.length := by
  unfold recomputeCents
  rw [List.length_map, List.enum_length]

lemma kmeansLoop_inv (pick : ℚ × ℚ × ℚ → List (ℚ × ℚ × ℚ) → ℕ)
    (hpick : ∀ p cands, cands ≠ [] → pick p cands < cands.length)
    (samples : List PixelSample) :
    ∀ (fuel : ℕ) (cents : List Centroid) (assigns : List ℕ),
      cents ≠ [] → assigns.length = samples.length →
      (∀ a ∈ assigns, a < cents.length) →
      (kmeansLoop pick samples fuel cents assigns).1.length = cents.length ∧
      (kmeansLoop pick samples fuel cents assigns).2.length = samples.length ∧
      ∀ a ∈ (kmeansLoop pick samples fuel cents assigns).2,
        a < (kmeansLoop pick samples fuel cents assigns).1.length := by
  intro fuel
  induction fuel with
  | zero =>
      intro cents assigns hc hl hv
      exact ⟨rfl, hl, hv⟩
  | succ n ih =>
      intro cents assigns hc hl hv
      simp only [kmeansLoop]
      by_cases hch : (assignStep pick samples cents assigns).2 = true
      · rw [if_pos hch]
        have hc' : recomputeCents samples (assignStep pick samples cents assigns).1 cents ≠ [] := by
          intro h
          apply hc
          have := recomputeCents_length samples (assignStep pick samples cents assigns).1 cents
          rw [h] at this
          exact List.length_eq_zero.mp this.symm
        have hres := ih (recomputeCents samples (assignStep pick samples cents assigns).1 cents)
          (assignStep pick samples cents assigns).1 hc'
          (assignStep_fst_length pick samples cents assigns)
          (by
            intro a ha
            rw [recomputeCents_length]
            exact assignStep_fst_mem pick hpick samples cents assigns hc a ha)
        refine ⟨?_, hres.2.1, hres.2.2⟩
        rw [hres.1, recomputeCents_length]
      · rw [if_neg hch]
        refine ⟨rfl, assignStep_fst_length pick samples cents assigns, ?_⟩
        intro a ha
        exact assignStep_fst_mem pick hpick samples cents assigns hc a ha

lemma mkSamples_length (img : Img) : (mkSamples img).length = img.h * img.w := by
  unfold mkSamples
  rw [List.length_map, List.length_range]

lemma clusterMembers_length_countP (samples : List PixelSample) (assigns : List ℕ)
    (c : ℕ) (hl : assigns.length = samples.length) :
    (clusterMembers samples assigns c).length = assigns.countP (· == c) := by
  unfold clusterMembers
  rw [List.length_map]
  exact zip_filter_snd_length c samples assigns hl

/-- The `extractColors` weight list evaluates along the computable
squared-distance twin. -/
lemma extractColors_weights_sum_eq (img : Img) (seeds : List ℕ) (maxIter : ℕ) :
    ((extractColors img seeds maxIter).map ColorRegion.weight).sum =
      (extractWeights img seeds maxIter).sum := by
  unfold extractColors extractWeights
  rw [nearestIdx_eq_Q]
  refine Eq.trans (List.Perm.sum_eq (List.Perm.map ColorRegion.weight
    (sortByWeightDesc_perm _))) ?_
  rw [List.map_map]
  rfl

lemma extractColors_length_eq (img : Img) (seeds : List ℕ) (maxIter : ℕ) :
    (extractColors img seeds maxIter).length =
      (extractWeights img seeds maxIter).length := by
  unfold extractColors extractWeights
  rw [nearestIdx_eq_Q]
  rw [List.Perm.length_eq (sortByWeightDesc_perm _)]
  rw [List.length_map, List.length_map]

/-! ## C2 -/

lemma extractWeights_eq_range (img : Img) (seeds : List ℕ) (maxIter : ℕ) :
    extractWeights img seeds maxIter =
      (((List.range (kmeansRun nearestIdxQ img seeds maxIter).1.length).filter
        fun c => (clusterMembers (mkSamples img)
          (kmeansRun nearestIdxQ img seeds maxIter).2 c).length != 0).map
        fun c => round2q (((clusterMembers (mkSamples img)
          (kmeansRun nearestIdxQ img seeds maxIter).2 c).length : ℚ) /
          ((mkSamples img).length : ℚ))) := by
  simp only [extractWeights]
  exact enum_filter_map_fst (kmeansRun nearestIdxQ img seeds maxIter).1
    (fun c => (clusterMembers (mkSamples img)
      (kmeansRun nearestIdxQ img seeds maxIter).2 c).length != 0)
    (fun c => round2q (((clusterMembers (mkSamples img)
      (kmeansRun nearestIdxQ img seeds maxIter).2 c).length : ℚ) /
      ((mkSamples img).length : ℚ)))

set_option maxHeartbeats 1000000 in
/-- C2 amended: the exact weights of `extractColors` sum to exactly 1
(the non-empty clusters partition all sampled pixels), so after the
per-region 2-decimal rounding the reported weights sum to 1 within
±0.005 per returned region — in particular within the claimed ±0.05
whenever at most 10 regions are returned, which covers every
fidelity-driven cluster count (3, 5 or 8); the number of regions never
exceeds the cluster count. -/
theorem extractColors_weight_partition (img : Img) (seeds : List ℕ) (maxIter : ℕ)
    (hw : 1 ≤ img.w) (hh : 1 ≤ img.h) (hs : seeds ≠ []) :
    (extractColors img seeds maxIter).length ≤ seeds.length ∧
    |((extractColors img seeds maxIter).map ColorRegion.weight).sum - 1| ≤
      ((extractColors img seeds maxIter).length : ℚ) / 200 := by
  rw [extractColors_weights_sum_eq, extractColors_length_eq, extractWeights_eq_range]
  have hpickQ : ∀ p cands, cands ≠ [] → nearestIdxQ p cands < cands.length :=
    fun p cands hc => nearestIdxQ_lt_length p cands hc
  have hc0ne : (seeds.map fun i =>
      Centroid.ofSample ((mkSamples img).getD i ⟨0, 0, 0, 0, 0⟩)) ≠ [] := by
    intro h
    exact hs (List.map_eq_nil_iff.mp h)
  have hN : (mkSamples img).length = img.h * img.w := mkSamples_length img
  have hN1 : 1 ≤ (mkSamples img).length := by
    rw [hN]
    have : 1 ≤ img.h * img.w := Nat.one_le_iff_ne_zero.mpr (Nat.mul_ne_zero (by omega) (by omega))
    omega
  have hca : kmeansRun nearestIdxQ img seeds maxIter =
      kmeansLoop nearestIdxQ (mkSamples img) maxIter
        (seeds.map fun i => Centroid.ofSample ((mkSamples img).getD i ⟨0, 0, 0, 0, 0⟩))
        (List.replicate (mkSamples img).length 0) := rfl
  obtain ⟨hL, hAlen, hAval⟩ := kmeansLoop_inv nearestIdxQ hpickQ (mkSamples img) maxIter
    (seeds.map fun i => Centroid.ofSample ((mkSamples img).getD i ⟨0, 0, 0, 0, 0⟩))
    (List.replicate (mkSamples img).length 0) hc0ne (List.length_replicate _ _)
    (by
      intro a ha
      rw [List.eq_of_mem_replicate ha]
      exact List.length_pos.mpr hc0ne)
  rw [← hca] at hL hAlen hAval
  have hLseeds : (kmeansRun nearestIdxQ img seeds maxIter).1.length = seeds.length := by
    rw [hL, List.length_map]
  constructor
  · rw [List.length_map]
    calc ((List.range (kmeansRun nearestIdxQ img seeds maxIter).1.length).filter
          fun c => (clusterMembers (mkSamples img)
            (kmeansRun nearestIdxQ img seeds maxIter).2 c).length != 0).length
        ≤ (List.range (kmeansRun nearestIdxQ img seeds maxIter).1.length).length :=
          List.length_filter_le _ _
      _ = seeds.length := by rw [List.length_range, hLseeds]
  · have hmapsplit : (((List.range (kmeansRun nearestIdxQ img seeds maxIter).1.length).filter
        fun c => (clusterMembers (mkSamples img)
          (kmeansRun nearestIdxQ img seeds maxIter).2 c).length != 0).map
        fun c => round2q (((clusterMembers (mkSamples img)
          (kmeansRun nearestIdxQ img seeds maxIter).2 c).length : ℚ) /
          ((mkSamples img).length : ℚ))) =
        ((((List.range (kmeansRun nearestIdxQ img seeds maxIter).1.length).filter
        fun c => (clusterMembers (mkSamples img)
          (kmeansRun nearestIdxQ img seeds maxIter).2 c).length != 0).map
        fun c => (((clusterMembers (mkSamples img)
          (kmeansRun nearestIdxQ img seeds maxIter).2 c).length : ℚ) /
          ((mkSamples img).length : ℚ))).map round2q) := by
      rw [List.map_map]
      rfl
    rw [hmapsplit]
    have hsum1 : (((List.range (kmeansRun nearestIdxQ img seeds maxIter).1.length).filter
        fun c => (clusterMembers (mkSamples img)
          (kmeansRun nearestIdxQ img seeds maxIter).2 c).length != 0).map
        fun c => (((clusterMembers (mkSamples img)
          (kmeansRun nearestIdxQ img seeds maxIter).2 c).length : ℚ) /
          ((mkSamples img).length : ℚ))).sum = 1 := by
      rw [list_filter_map_sum _ _ _ (by
        intro c _ hcf
        have h0 : (clusterMembers (mkSamples img)
            (kmeansRun nearestIdxQ img seeds maxIter).2 c).length = 0 := by
          simpa using hcf
        rw [h0]
        simp)]
      rw [range_sum_eq_finset_sum, ← Finset.sum_div]
      have hcnt : ∀ c, (clusterMembers (mkSamples img)
          (kmeansRun nearestIdxQ img seeds maxIter).2 c).length =
          (kmeansRun nearestIdxQ img seeds maxIter).2.countP (· == c) :=
        fun c => clusterMembers_length_countP _ _ c hAlen
      have htot : ∑ c ∈ Finset.range (kmeansRun nearestIdxQ img seeds maxIter).1.length,
          (((clusterMembers (mkSamples img)
            (kmeansRun nearestIdxQ img seeds maxIter).2 c).length : ℕ) : ℚ) =
          (((mkSamples img).length : ℕ) : ℚ) := by
        rw [← Nat.cast_sum]
        congr 1
        exact (Finset.sum_congr rfl fun c _ => hcnt c).trans
          ((sum_countP_range _ _ hAval).trans hAlen)
      rw [htot, div_self]
      have : (0 : ℚ) < ((mkSamples img).length : ℚ) := by exact_mod_cast hN1
      exact ne_of_gt this
    have hclose := sum_round2q_close (((List.range
        (kmeansRun nearestIdxQ img seeds maxIter).1.length).filter
        fun c => (clusterMembers (mkSamples img)
          (kmeansRun nearestIdxQ img seeds maxIter).2 c).length != 0).map
        fun c => (((clusterMembers (mkSamples img)
          (kmeansRun nearestIdxQ img seeds maxIter).2 c).length : ℚ) /
          ((mkSamples img).length : ℚ)))
    rw [hsum1, List.length_map] at hclose
    rw [List.length_map, List.length_map]
    exact hclose

/-- C2 witness: a 1x1 image with one seed. -/
theorem extractColors_weight_partition_witness :
    1 ≤ imgC10.w ∧ ([0] : List ℕ) ≠ [] ∧
    ((extractColors imgC10 [0] 20).length ≤ ([0] : List ℕ).length ∧
      |((extractColors imgC10 [0] 20).map ColorRegion.weight).sum - 1| ≤
        ((extractColors imgC10 [0] 20).length : ℚ) / 200) :=
  ⟨by decide, by simp,
    extractColors_weight_partition imgC10 [0] 20 (by decide) (by decide) (by simp)⟩

set_option maxRecDepth 100000 in
set_option maxHeartbeats 4000000 in
/-- C2 counterexample: a legitimate analysis run — the 8x5 image
`imgC2` with 12 requested clusters (`colorClusters: 12` is an admissible
`analyzeImage` option) and the seeding that picks one pixel of each of
its 12 colours — converges to clusters of sizes 1,...,1,29 out of 40
pixels.  Every weight rounds half-up (1/40 to 0.03, 29/40 to 0.73), so
the reported weights sum to 1.06: outside the claimed ±0.05 tolerance. -/
theorem extractColors_weight_sum_violation :
    ((extractColors imgC2 seedsC2 20).map ColorRegion.weight).sum = 53/50 ∧
    ¬(|((extractColors imgC2 seedsC2 20).map ColorRegion.weight).sum - 1| ≤ 5/100) := by
  have h : ((extractColors imgC2 seedsC2 20).map ColorRegion.weight).sum = 53/50 := by
    rw [extractColors_weights_sum_eq]
    with_unfolding_all rfl
  refine ⟨h, ?_⟩
  rw [h]
  intro hcon
  rw [show (53 : ℚ)/50 - 1 = 3/50 by norm_num] at hcon
  rw [abs_of_pos (by norm_num)] at hcon
  norm_num at hcon

/-! ## C6 -/

lemma list_map_const_of_mem {α β : Type} (l : List α) (f : α → β) (k : β)
    (h : ∀ a ∈ l, f a = k) : l.map f = List.replicate l.length k := by
  induction l with
  | nil => rfl
  | cons x t ih =>
      simp only [List.map_cons, List.length_cons, List.replicate_succ]
      rw [h x (List.mem_cons_self x t), ih fun a ha => h a (List.mem_cons_of_mem _ ha)]

/-- On an image whose samples all share one colour, every assignment
pass labels every sample with one and the same (valid) cluster index,
whatever the seeding was, so the loop always ends with a constant
assignment array. -/
lemma kmeansLoop_flat (pick : ℚ × ℚ × ℚ → List (ℚ × ℚ × ℚ) → ℕ)
    (hpick : ∀ p cands, cands ≠ [] → pick p cands < cands.length)
    (samples : List PixelSample) (v : ℚ × ℚ × ℚ)
    (hv : ∀ s ∈ samples, s.rgbq = v) :
    ∀ (fuel : ℕ) (cents : List Centroid) (j : ℕ), cents ≠ [] → j < cents.length →
      ∃ i, i < cents.length ∧
        (kmeansLoop pick samples fuel cents (List.replicate samples.length j)).2 =
          List.replicate samples.length i := by
  intro fuel
  induction fuel with
  | zero =>
      intro cents j hc hj
      exact ⟨j, hj, rfl⟩
  | succ n ih =>
      intro cents j hc hj
      simp only [kmeansLoop]
      have hna : (assignStep pick samples cents (List.replicate samples.length j)).1 =
          List.replicate samples.length (pick v (cents.map Centroid.rgbq)) := by
        unfold assignStep
        dsimp only
        exact list_map_const_of_mem samples _ _ fun s hs => by rw [hv s hs]
      have hbound : pick v (cents.map Centroid.rgbq) < cents.length := by
        have h := hpick v (cents.map Centroid.rgbq)
          (fun hmap => hc (List.map_eq_nil_iff.mp hmap))
        rwa [List.length_map] at h
      by_cases hch : (assignStep pick samples cents (List.replicate samples.length j)).2 = true
      · rw [if_pos hch, hna]
        have hne : recomputeCents samples
            (List.replicate samples.length (pick v (cents.map Centroid.rgbq))) cents ≠ [] := by
          intro h
          apply hc
          have hlen := recomputeCents_length samples
            (List.replicate samples.length (pick v (cents.map Centroid.rgbq))) cents
          rw [h] at hlen
          exact List.length_eq_zero.mp hlen.symm
        obtain ⟨i, hi, hres⟩ := ih (recomputeCents samples
            (List.replicate samples.length (pick v (cents.map Centroid.rgbq))) cents)
          (pick v (cents.map Centroid.rgbq)) hne
          (by rw [recomputeCents_length]; exact hbound)
        rw [recomputeCents_length] at hi
        exact ⟨i, hi, hres⟩
      · rw [if_neg hch, hna]
        exact ⟨pick v (cents.map Centroid.rgbq), hbound, rfl⟩

lemma zip_replicate_self {α β : Type} (l : List α) (b : β) :
    l.zip (List.replicate l.length b) = l.map fun a => (a, b) := by
  induction l with
  | nil => rfl
  | cons x t ih => simp [List.replicate_succ, ih]

lemma clusterMembers_replicate (samples : List PixelSample) (i c : ℕ) :
    clusterMembers samples (List.replicate samples.length i) c =
      if i = c then samples else [] := by
  unfold clusterMembers
  rw [zip_replicate_self, List.filter_map, List.map_map]
  by_cases h : i = c
  · subst h
    rw [if_pos rfl]
    have h1 : ((fun sa : PixelSample × ℕ => sa.2 == i) ∘ fun a => (a, i)) =
        fun _ => true := by
      funext a
      simp
    have h2 : (Prod.fst ∘ fun a : PixelSample => (a, i)) = fun a => a := rfl
    rw [h1, h2]
    simp
  · simp [h]

lemma enumFrom_filter_fst_nil {α : Type} (l : List α) :
    ∀ (n i : ℕ), i < n → (List.enumFrom n l).filter (fun ci => ci.1 == i) = [] := by
  induction l with
  | nil => intro n i h; rfl
  | cons a t ih =>
      intro n i hi
      simp only [List.enumFrom, List.filter_cons]
      have hfalse : ((n, a).1 == i) = false := by
        simp only [beq_eq_false_iff_ne]
        omega
      rw [hfalse]
      simp only [Bool.false_eq_true, if_false]
      exact ih (n + 1) i (by omega)

lemma enumFrom_filter_fst_singleton {α : Type} (d : α) :
    ∀ (l : List α) (n i : ℕ), n ≤ i → i - n < l.length →
      (List.enumFrom n l).filter (fun ci => ci.1 == i) = [(i, l.getD (i - n) d)] := by
  intro l
  induction l with
  | nil =>
      intro n i h1 h2
      simp at h2
  | cons a t ih =>
      intro n i h1 h2
      simp only [List.enumFrom, List.filter_cons]
      by_cases hn : n = i
      · subst hn
        have htrue : ((n, a).1 == n) = true := by simp
        rw [htrue]
        simp only [if_true]
        rw [enumFrom_filter_fst_nil t (n + 1) n (by omega)]
        simp
      · have hfalse : ((n, a).1 == i) = false := by
          simp only [beq_eq_false_iff_ne]
          exact hn
        rw [hfalse]
        simp only [Bool.false_eq_true, if_false]
        rw [ih (n + 1) i (by omega) (by
          simp only [List.length_cons] at h2
          omega)]
        have hidx : i - n = (i - (n + 1)) + 1 := by omega
        rw [hidx, List.getD_cons_succ]

lemma kept_singleton (cents : List Centroid) (samples : List PixelSample)
    (i : ℕ) (hi : i < cents.length) (hN : samples.length ≠ 0) :
    cents.enum.filter (fun ci =>
      (clusterMembers samples (List.replicate samples.length i) ci.1).length != 0) =
    [(i, cents.getD i ⟨0, 0, 0, 0, 0⟩)] := by
  have hcongr : ∀ ci ∈ cents.enum,
      ((clusterMembers samples (List.replicate samples.length i) ci.1).length != 0) =
        (ci.1 == i) := by
    intro ci _
    rw [clusterMembers_replicate]
    by_cases h : i = ci.1
    · rw [if_pos h, h]
      simp [hN]
    · rw [if_neg h]
      simp only [List.length_nil]
      have : (ci.1 == i) = false := by
        simp only [beq_eq_false_iff_ne]
        exact fun he => h he.symm
      rw [this]
      simp
  rw [List.filter_congr hcongr]
  have := enumFrom_filter_fst_singleton (⟨0, 0, 0, 0, 0⟩ : Centroid) cents 0 i
    (by omega) (by simpa using hi)
  simpa using this

set_option maxHeartbeats 2000000 in
/-- C6: on a perfectly uniform flat-colour buffer the full analysis
yields exactly one colour region of weight 1, the strategy "simple",
and no shapes, whatever the seeding randomness chose. -/
theorem analyzeImage_flat (img : Img) (seeds : List ℕ) (c : ℕ × ℕ × ℕ)
    (hw : 1 ≤ img.w) (hh : 1 ≤ img.h) (hs : seeds ≠ [])
    (hflat : ∀ x, x < img.w → ∀ y, y < img.h → getPixel img x y = c) :
    ∃ r, (analyzeImage img seeds).colors = [r] ∧ r.weight = 1 ∧
      (analyzeImage img seeds).strategy = .simple ∧
      (analyzeImage img seeds).shapes = Option.none := by
  have hN : (mkSamples img).length = img.h * img.w := mkSamples_length img
  have hN0 : (mkSamples img).length ≠ 0 := by
    rw [hN]
    exact Nat.mul_ne_zero (by omega) (by omega)
  have hv : ∀ s ∈ mkSamples img, s.rgbq = ((c.1 : ℚ), (c.2.1 : ℚ), (c.2.2 : ℚ)) := by
    intro s hs'
    unfold mkSamples at hs'
    obtain ⟨p, hp, rfl⟩ := List.mem_map.mp hs'
    rw [List.mem_range] at hp
    have hx : p % img.w < img.w := Nat.mod_lt _ (by omega)
    have hy : p / img.w < img.h := Nat.div_lt_of_lt_mul
      (by rw [Nat.mul_comm img.w img.h]; exact hp)
    unfold PixelSample.rgbq
    dsimp only
    rw [hflat (p % img.w) hx (p / img.w) hy]
  have hc0ne : (seeds.map fun i =>
      Centroid.ofSample ((mkSamples img).getD i ⟨0, 0, 0, 0, 0⟩)) ≠ [] := by
    intro h
    exact hs (List.map_eq_nil_iff.mp h)
  have hca : kmeansRun nearestIdx img seeds 20 =
      kmeansLoop nearestIdx (mkSamples img) 20
        (seeds.map fun i => Centroid.ofSample ((mkSamples img).getD i ⟨0, 0, 0, 0, 0⟩))
        (List.replicate (mkSamples img).length 0) := rfl
  obtain ⟨i, hi, hA⟩ := kmeansLoop_flat nearestIdx nearestIdx_lt (mkSamples img)
    ((c.1 : ℚ), (c.2.1 : ℚ), (c.2.2 : ℚ)) hv 20
    (seeds.map fun i => Centroid.ofSample ((mkSamples img).getD i ⟨0, 0, 0, 0, 0⟩))
    0 hc0ne (List.length_pos.mpr hc0ne)
  rw [← hca] at hA
  obtain ⟨hL, -, -⟩ := kmeansLoop_inv nearestIdx nearestIdx_lt (mkSamples img) 20
    (seeds.map fun i => Centroid.ofSample ((mkSamples img).getD i ⟨0, 0, 0, 0, 0⟩))
    (List.replicate (mkSamples img).length 0) hc0ne (List.length_replicate _ _)
    (by
      intro a ha
      rw [List.eq_of_mem_replicate ha]
      exact List.length_pos.mpr hc0ne)
  rw [← hca] at hL
  have hi' : i < (kmeansRun nearestIdx img seeds 20).1.length := by
    rw [hL, List.length_map]
    rwa [List.length_map] at hi
  have hEx : extractColors img seeds 20 =
      [buildRegion ((mkSamples img).length : ℚ) (mkSamples img)
        (List.replicate (mkSamples img).length i) i
        ((kmeansRun nearestIdx img seeds 20).1.getD i ⟨0, 0, 0, 0, 0⟩)] := by
    simp only [extractColors]
    rw [hA, kept_singleton (kmeansRun nearestIdx img seeds 20).1 (mkSamples img) i hi' hN0]
    rfl
  have hwr : (buildRegion ((mkSamples img).length : ℚ) (mkSamples img)
      (List.replicate (mkSamples img).length i) i
      ((kmeansRun nearestIdx img seeds 20).1.getD i ⟨0, 0, 0, 0, 0⟩)).weight = 1 := by
    show round2q (((clusterMembers (mkSamples img)
      (List.replicate (mkSamples img).length i) i).length : ℚ) /
      ((mkSamples img).length : ℚ)) = 1
    rw [clusterMembers_replicate, if_pos rfl, div_self (by exact_mod_cast hN0)]
    norm_num [round2q, jsRound]
  have hcolors : (analyzeImage img seeds).colors =
      computeEdgeSharpness img (extractColors img seeds 20)
        (assignPixelsToClusters img (extractColors img seeds 20)) := rfl
  have hstrat : (analyzeImage img seeds).strategy =
      classifyRest (computeEdgeSharpness img (extractColors img seeds 20)
        (assignPixelsToClusters img (extractColors img seeds 20))) := rfl
  rw [hEx] at hcolors hstrat
  have hced : computeEdgeSharpness img
      [buildRegion ((mkSamples img).length : ℚ) (mkSamples img)
        (List.replicate (mkSamples img).length i) i
        ((kmeansRun nearestIdx img seeds 20).1.getD i ⟨0, 0, 0, 0, 0⟩)]
      (assignPixelsToClusters img
        [buildRegion ((mkSamples img).length : ℚ) (mkSamples img)
          (List.replicate (mkSamples img).length i) i
          ((kmeansRun nearestIdx img seeds 20).1.getD i ⟨0, 0, 0, 0, 0⟩)]) =
      [{ buildRegion ((mkSamples img).length : ℚ) (mkSamples img)
          (List.replicate (mkSamples img).length i) i
          ((kmeansRun nearestIdx img seeds 20).1.getD i ⟨0, 0, 0, 0, 0⟩) with
        edgeSharpness := edgeSharpnessOf img
          (assignPixelsToClusters img
            [buildRegion ((mkSamples img).length : ℚ) (mkSamples img)
              (List.replicate (mkSamples img).length i) i
              ((kmeansRun nearestIdx img seeds 20).1.getD i ⟨0, 0, 0, 0, 0⟩)]) 0 }] := rfl
  rw [hced] at hcolors hstrat
  refine ⟨_, hcolors, hwr, ?_, rfl⟩
  rw [hstrat]
  unfold classifyRest
  rw [if_pos (by simp)]

/-- Witness for C6: the flat 2x2 grey image with a single seed. -/
theorem analyzeImage_flat_witness :
    ∃ r, (analyzeImage img2x2 [0]).colors = [r] ∧ r.weight = 1 ∧
      (analyzeImage img2x2 [0]).strategy = .simple ∧
      (analyzeImage img2x2 [0]).shapes = Option.none :=
  analyzeImage_flat img2x2 [0] (128, 128, 128) (by decide) (by decide)
    (by decide) (by decide)

end GradientBro
